import Mathlib

/-!
Verification of the type-metadata-identifier encoder
(compiler/rustc_symbol_mangling/src/typeid/typeid_itanium_cxx_abi.rs).

The Rust source is shallowly embedded: the type-system data consumed from the
external type-system database (type graph nodes, generic arguments, const
values, regions, existential predicates, ADT metadata, function-ABI
descriptors) becomes a family of mutual inductive types; the encoder functions
become Lean functions over them.  Mutable state (the substitution dictionary,
the diagnostic context) is threaded explicitly; the fatal bug macro is
modelled by returning none.  External facts the compiler queries (path names
produced by encode_ty_name's def-path walk, field zero-sizedness from layout,
the c_void marker check, the target pointer width) are carried as data on the
nodes or passed as parameters, mirroring the query results the source reads.
-/

namespace TypeidItaniumCxxAbi

/-! ## Disambiguator / sequence codec -/

/-- Modelled from the spec: rustc_data_structures::base_n::encode is not under
src/ (only its caller is).  The spec describes to_disambiguator and to_seq_id
as the base-62, respectively uppercased base-36, positional renderings of n-1,
with to_disambiguator(1) = "s0_"; accordingly the digit alphabet is the
decimal digits first, then the lowercase letters, then the uppercase letters
(the RFC 2603 base-62 digit set). -/
def base_n_digits : List Char :=
  "0123456789abcdefghijklmnopqrstuvwxyzABCDEFGHIJKLMNOPQRSTUVWXYZ".data

/-- Modelled from the spec: digit-accumulation loop of base_n::encode.  The
first argument is fuel; encode supplies n+1, enough for any base of at least
two. -/
def base_n_encode_go (base : Nat) : Nat → Nat → List Char → List Char
  | 0, _, acc => acc
  | fuel + 1, n, acc =>
    let d := base_n_digits.getD (n % base) '0'
    if n / base = 0 then d :: acc
    else base_n_encode_go base fuel (n / base) (d :: acc)

/-- Modelled from the spec: base_n::encode(n, base) renders n in the given
base with the digit alphabet of base_n_digits. -/
def base_n_encode (n : Nat) (base : Nat) : String :=
  ⟨base_n_encode_go base (n + 1) n []⟩

/-- Converts a number to a disambiguator (source lines 58-64). -/
def to_disambiguator (num : Nat) : String :=
  match num with
  | 0 => "s_"
  | n + 1 => "s" ++ base_n_encode n 62 ++ "_"

/-- String::to_uppercase restricted to the ASCII alphanumerics base_n emits
(character-wise uppercasing). -/
def str_to_upper (s : String) : String :=
  ⟨s.data.map Char.toUpper⟩

/-- Converts a number to a sequence number (source lines 68-74). -/
def to_seq_id (num : Nat) : String :=
  match num with
  | 0 => ""
  | n + 1 => str_to_upper (base_n_encode n 36)

/-! ## Options

TypeIdOptions is a bit-flag set in the source; it is modelled as a record of
the four named flags.  The from_bits round-trips in the source can only fail
on bit patterns outside the four flags, which the record cannot represent, so
those bug branches are dead here. -/

structure TypeIdOptions where
  generalize_pointers : Bool
  normalize_integers : Bool
  generalize_repr_c : Bool
  use_concrete_self : Bool
deriving DecidableEq

def TypeIdOptions.empty : TypeIdOptions :=
  ⟨false, false, false, false⟩

/-! ## The type-system data model

Scalar kind tags mirror rustc_middle's IntTy, UintTy, FloatTy.  Region mirrors
RegionKind with the data the encoder reads (de Bruijn binder index and
variable index for bound regions).  Names produced by encode_ty_name (a pure
function of externally owned def-path data) are carried as data on the nodes
that own a DefId, as are the ADT attribute/repr/layout facts the source
queries from tcx. -/

inductive IntTy | i8 | i16 | i32 | i64 | i128 | isize
deriving DecidableEq

inductive UintTy | u8 | u16 | u32 | u64 | u128 | usize
deriving DecidableEq

inductive FloatTy | f16 | f32 | f64 | f128
deriving DecidableEq

inductive Mutability | not | mut
deriving DecidableEq

inductive RegionKind
  | reBound (debruijn : Nat) (var : Nat)
  | reEarlyParam
  | reLateParam
  | reStatic
  | reError
  | reVar
  | rePlaceholder
  | reErased
deriving DecidableEq

inductive DynKind | dyn | dynStar
deriving DecidableEq

/-- Calling-convention tag of a FnSig; only whether it is Abi::C matters to
the source (encode_fnsig's match). -/
inductive Abi | c | rust
deriving DecidableEq

/-- Calling-convention tag of a FnAbi; only whether it is Conv::C matters to
the source (typeid_for_fnabi's match). -/
inductive Conv | c | other
deriving DecidableEq

/-- Pass mode of an argument in a FnAbi; only equality with PassMode::Ignore
matters to the source. -/
inductive PassMode | ignore | direct
deriving DecidableEq

inductive CnstKind
  | param
  | value (bits : Nat)
deriving DecidableEq

/-- ADT metadata the encoder queries from the type-system database:
the encode_ty_name rendering of its path, its unscoped item name, the
cfi_encoding attribute (outer layer: attribute present; inner layer:
value_str's result), the repr flags, whether it is a struct, and whether it is
the canonical core::ffi::c_void marker. -/
structure AdtInfo where
  name : String
  item_name : String
  cfi_encoding : Option (Option String)
  repr_c : Bool
  repr_transparent : Bool
  is_struct : Bool
  is_c_void : Bool
deriving DecidableEq

/-- Metadata of a ty::Foreign node: its unscoped item name and cfi_encoding
attribute. -/
structure ForeignInfo where
  item_name : String
  cfi_encoding : Option (Option String)
deriving DecidableEq

mutual

/-- The type-graph node, mirroring the ty::TyKind variants the encoder
matches on.  Fields of an ADT are carried instantiated with the node's
generic arguments together with the layout's is_zst answer, modelling the
result of the tcx.type_of(..).instantiate(..) and tcx.layout_of(..).is_zst()
queries; they are derived data, not part of the type's interned identity
(rustc's ty::Adt is AdtDef plus args), which Ty.teq below captures.  A
self-referential aggregate such as repr(transparent) struct P(*const P) is
represented by a finite tree whose inner occurrence of P carries a shallower
unrolling of the same field data: the occurrences are teq-equal, as the
interned nodes are equal in rustc.  A ty::Alias node carries the type that
normalize_erasing_regions resolves it to.  Coroutines and coroutine-closures
carry the parent-args sublist the encoder extracts. -/
inductive Ty
  | bool
  | int (it : IntTy)
  | uint (ut : UintTy)
  | float (ft : FloatTy)
  | char
  | str
  | never
  | tuple (tys : Tys)
  | array (elem : Ty) (len : Nat)
  | pat (elem : Ty) (pattern : String)
  | slice (elem : Ty)
  | adt (info : AdtInfo) (fields : Fields) (args : GArgs)
  | foreign (info : ForeignInfo)
  | fnDef (name : String) (args : GArgs)
  | closure (name : String) (args : GArgs)
  | coroutineClosure (name : String) (parent_args : GArgs)
  | coroutine (name : String) (parent_args : GArgs)
  | ref (region : RegionKind) (pointee : Ty) (m : Mutability)
  | rawPtr (pointee : Ty) (m : Mutability)
  | fnPtr (sig : FnSig)
  | dynamic (preds : Preds) (region : RegionKind) (kind : DynKind)
  | param
  | alias (resolved : Ty)
  | bound
  | error
  | coroutineWitness
  | infer
  | placeholder
deriving DecidableEq

inductive Tys
  | nil
  | cons (t : Ty) (ts : Tys)

/-- One field of an ADT variant: its instantiated type and the layout
query's is_zst answer. -/
inductive FieldDef
  | mk (ty : Ty) (is_zst : Bool)

inductive Fields
  | nil
  | cons (f : FieldDef) (fs : Fields)

/-- A generic argument: region, type, or const. -/
inductive GArg
  | lifetime (r : RegionKind)
  | type (t : Ty)
  | const (c : Cnst)

inductive GArgs
  | nil
  | cons (a : GArg) (as_ : GArgs)

/-- A ty::Const: its kind (unresolved parameter, or evaluated value whose
eval_bits result is the stored bit pattern) and its type. -/
inductive Cnst
  | mk (kind : CnstKind) (ty : Ty)

/-- The resolved term of an associated-type projection. -/
inductive Term
  | ty (t : Ty)
  | const (c : Cnst)

/-- An existential predicate; names carry the encode_ty_name rendering of the
trait or associated item. -/
inductive Predicate
  | trait (name : String) (args : GArgs)
  | projection (name : String) (args : GArgs) (term : Term)
  | autoTrait (name : String)

inductive Preds
  | nil
  | cons (p : Predicate) (ps : Preds)

/-- A fn signature: inputs, output, c-variadic flag, and ABI. -/
inductive FnSig
  | mk (inputs : Tys) (output : Ty) (c_variadic : Bool) (abi : Abi)

end

def FnSig.inputs : FnSig → Tys
  | .mk is _ _ _ => is

def FnSig.output : FnSig → Ty
  | .mk _ o _ _ => o

def FnSig.c_variadic : FnSig → Bool
  | .mk _ _ v _ => v

def FnSig.abi : FnSig → Abi
  | .mk _ _ _ a => a

/-- Equality on the remaining members of the mutual family is decided
through the decision procedure derived for Ty, via injective wrappers. -/
instance : DecidableEq Cnst := fun a b =>
  decidable_of_iff
    (Ty.fnDef "" (.cons (.const a) .nil) = Ty.fnDef "" (.cons (.const b) .nil))
    (by simp)

instance : DecidableEq Predicate := fun a b =>
  decidable_of_iff
    (Ty.dynamic (.cons a .nil) .reErased .dyn
      = Ty.dynamic (.cons b .nil) .reErased .dyn)
    (by simp)

/-- Type and extended type qualifiers (source lines 34-39). -/
inductive TyQ | none | const | mut
deriving DecidableEq

/-- Substitution dictionary key (source lines 42-48). -/
inductive DictKey
  | ty (t : Ty) (q : TyQ)
  | region (r : RegionKind)
  | const (c : Cnst)
  | predicate (p : Predicate)
deriving DecidableEq

/-! ## Compression dictionary

The source's FxHashMap from DictKey to usize only ever receives insertions of
the form insert(key, dict.len()), so the stored indices are exactly the
first-insertion order; the map is modelled as the list of keys in insertion
order, a key's stored index being its position. -/

/-- Substitutes a component if found in the substitution dictionary (source
lines 78-92).  Returns the updated dictionary and component. -/
def compress (dict : List DictKey) (key : DictKey) (comp : String) :
    List DictKey × String :=
  match dict.findIdx? (· == key) with
  | some num => (dict, "S" ++ to_seq_id num ++ "_")
  | none => (dict ++ [key], comp)

/-- Encoder state: the substitution dictionary plus the number of diagnostics
emitted through the diagnostic context (tcx.dcx().struct_span_err(..).emit()
increments it). -/
structure EncState where
  dict : List DictKey
  diags : Nat
deriving DecidableEq

end TypeidItaniumCxxAbi

namespace TypeidItaniumCxxAbi

/-! ## Type predicates read from rustc_middle -/

/-- ty.is_unit(): the zero-element tuple. -/
def Ty.unit : Ty := .tuple .nil

/-- ty.is_any_ptr(): reference, raw pointer, or fn pointer. -/
def Ty.is_any_ptr : Ty → Bool
  | .ref .. => true
  | .rawPtr .. => true
  | .fnPtr _ => true
  | _ => false

/-! Interned-type equality.  rustc compares types by their interned identity:
for ty::Adt that is the AdtDef (identity) and the generic args; the field
types are a derived query, not part of the node.  Ty.teq mirrors this:
structural equality everywhere except that the stored field data of an adt
node is ignored. -/

mutual

def Ty.teq : Ty → Ty → Bool
  | .bool, .bool => true
  | .int a, .int b => a == b
  | .uint a, .uint b => a == b
  | .float a, .float b => a == b
  | .char, .char => true
  | .str, .str => true
  | .never, .never => true
  | .tuple ts1, .tuple ts2 => Tys.teq ts1 ts2
  | .array e1 n1, .array e2 n2 => Ty.teq e1 e2 && n1 == n2
  | .pat e1 p1, .pat e2 p2 => Ty.teq e1 e2 && p1 == p2
  | .slice e1, .slice e2 => Ty.teq e1 e2
  | .adt i1 _ a1, .adt i2 _ a2 => i1 == i2 && GArgs.teq a1 a2
  | .foreign i1, .foreign i2 => i1 == i2
  | .fnDef n1 a1, .fnDef n2 a2 => n1 == n2 && GArgs.teq a1 a2
  | .closure n1 a1, .closure n2 a2 => n1 == n2 && GArgs.teq a1 a2
  | .coroutineClosure n1 a1, .coroutineClosure n2 a2 =>
      n1 == n2 && GArgs.teq a1 a2
  | .coroutine n1 a1, .coroutine n2 a2 => n1 == n2 && GArgs.teq a1 a2
  | .ref r1 p1 m1, .ref r2 p2 m2 => r1 == r2 && Ty.teq p1 p2 && m1 == m2
  | .rawPtr p1 m1, .rawPtr p2 m2 => Ty.teq p1 p2 && m1 == m2
  | .fnPtr s1, .fnPtr s2 => FnSig.teq s1 s2
  | .dynamic ps1 r1 k1, .dynamic ps2 r2 k2 =>
      Preds.teq ps1 ps2 && r1 == r2 && k1 == k2
  | .param, .param => true
  | .alias t1, .alias t2 => Ty.teq t1 t2
  | .bound, .bound => true
  | .error, .error => true
  | .coroutineWitness, .coroutineWitness => true
  | .infer, .infer => true
  | .placeholder, .placeholder => true
  | _, _ => false
  termination_by structural a _ => a

def Tys.teq : Tys → Tys → Bool
  | .nil, .nil => true
  | .cons t1 ts1, .cons t2 ts2 => Ty.teq t1 t2 && Tys.teq ts1 ts2
  | _, _ => false
  termination_by structural a _ => a

def GArgs.teq : GArgs → GArgs → Bool
  | .nil, .nil => true
  | .cons a1 as1, .cons a2 as2 => GArg.teq a1 a2 && GArgs.teq as1 as2
  | _, _ => false
  termination_by structural a _ => a

def GArg.teq : GArg → GArg → Bool
  | .lifetime r1, .lifetime r2 => r1 == r2
  | .type t1, .type t2 => Ty.teq t1 t2
  | .const c1, .const c2 => Cnst.teq c1 c2
  | _, _ => false
  termination_by structural a _ => a

def Cnst.teq : Cnst → Cnst → Bool
  | .mk k1 t1, .mk k2 t2 => k1 == k2 && Ty.teq t1 t2
  termination_by structural a _ => a

def Preds.teq : Preds → Preds → Bool
  | .nil, .nil => true
  | .cons p1 ps1, .cons p2 ps2 => Predicate.teq p1 p2 && Preds.teq ps1 ps2
  | _, _ => false
  termination_by structural a _ => a

def Predicate.teq : Predicate → Predicate → Bool
  | .trait n1 a1, .trait n2 a2 => n1 == n2 && GArgs.teq a1 a2
  | .projection n1 a1 t1, .projection n2 a2 t2 =>
      n1 == n2 && GArgs.teq a1 a2 && Term.teq t1 t2
  | .autoTrait n1, .autoTrait n2 => n1 == n2
  | _, _ => false
  termination_by structural a _ => a

def Term.teq : Term → Term → Bool
  | .ty t1, .ty t2 => Ty.teq t1 t2
  | .const c1, .const c2 => Cnst.teq c1 c2
  | _, _ => false
  termination_by structural a _ => a

def FnSig.teq : FnSig → FnSig → Bool
  | .mk i1 o1 v1 a1, .mk i2 o2 v2 a2 =>
      Tys.teq i1 i2 && Ty.teq o1 o2 && v1 == v2 && a1 == a2
  termination_by structural a _ => a

end

/-! TypeVisitableExt::contains(needle): whether the needle occurs in the
visitable structure of the type (generic arguments of an ADT, element types,
pointees, signature components, predicate contents; not the ADT's stored
field data, which is not part of the ty's own structure).  Visited nodes are
compared against the needle by interned-type equality, Ty.teq. -/

mutual

def Ty.contains_ty (t : Ty) (needle : Ty) : Bool :=
  Ty.teq t needle ||
  match t with
  | .tuple ts => Tys.contains_ty ts needle
  | .array e _ => Ty.contains_ty e needle
  | .pat e _ => Ty.contains_ty e needle
  | .slice e => Ty.contains_ty e needle
  | .adt _ _ args => GArgs.contains_ty args needle
  | .fnDef _ args => GArgs.contains_ty args needle
  | .closure _ args => GArgs.contains_ty args needle
  | .coroutineClosure _ args => GArgs.contains_ty args needle
  | .coroutine _ args => GArgs.contains_ty args needle
  | .ref _ p _ => Ty.contains_ty p needle
  | .rawPtr p _ => Ty.contains_ty p needle
  | .fnPtr sig => FnSig.contains_ty sig needle
  | .dynamic preds _ _ => Preds.contains_ty preds needle
  | .alias r => Ty.contains_ty r needle
  | _ => false
  termination_by structural t

def Tys.contains_ty (ts : Tys) (needle : Ty) : Bool :=
  match ts with
  | .nil => false
  | .cons t rest => Ty.contains_ty t needle || Tys.contains_ty rest needle
  termination_by structural ts

def GArgs.contains_ty (args : GArgs) (needle : Ty) : Bool :=
  match args with
  | .nil => false
  | .cons a rest => GArg.contains_ty a needle || GArgs.contains_ty rest needle
  termination_by structural args

def GArg.contains_ty (a : GArg) (needle : Ty) : Bool :=
  match a with
  | .lifetime _ => false
  | .type t => Ty.contains_ty t needle
  | .const c => Cnst.contains_ty c needle
  termination_by structural a

def Cnst.contains_ty (c : Cnst) (needle : Ty) : Bool :=
  match c with
  | .mk _ cty => Ty.contains_ty cty needle
  termination_by structural c

def Preds.contains_ty (ps : Preds) (needle : Ty) : Bool :=
  match ps with
  | .nil => false
  | .cons p rest => Predicate.contains_ty p needle || Preds.contains_ty rest needle
  termination_by structural ps

def Predicate.contains_ty (p : Predicate) (needle : Ty) : Bool :=
  match p with
  | .trait _ args => GArgs.contains_ty args needle
  | .projection _ args term =>
      GArgs.contains_ty args needle || Term.contains_ty term needle
  | .autoTrait _ => false
  termination_by structural p

def Term.contains_ty (tm : Term) (needle : Ty) : Bool :=
  match tm with
  | .ty t => Ty.contains_ty t needle
  | .const c => Cnst.contains_ty c needle
  termination_by structural tm

def FnSig.contains_ty (sig : FnSig) (needle : Ty) : Bool :=
  match sig with
  | .mk ins out _ _ => Tys.contains_ty ins needle || Ty.contains_ty out needle
  termination_by structural sig

end

/-! Deep node occurrence: whether some type node structurally present in the
given object (including inside the stored field data of aggregates) is the
given type.  This is the tree-model notion of "the interned node occurs in
the data reachable from here"; it is used to state when the normalization
pass's visited stack is irrelevant and when a wrapper is self-referential. -/

mutual

def Ty.occurs_node (t : Ty) (needle : Ty) : Bool :=
  t == needle ||
  match t with
  | .tuple ts => Tys.occurs_node ts needle
  | .array e _ => Ty.occurs_node e needle
  | .pat e _ => Ty.occurs_node e needle
  | .slice e => Ty.occurs_node e needle
  | .adt _ fields args =>
      Fields.occurs_node fields needle || GArgs.occurs_node args needle
  | .fnDef _ args => GArgs.occurs_node args needle
  | .closure _ args => GArgs.occurs_node args needle
  | .coroutineClosure _ args => GArgs.occurs_node args needle
  | .coroutine _ args => GArgs.occurs_node args needle
  | .ref _ p _ => Ty.occurs_node p needle
  | .rawPtr p _ => Ty.occurs_node p needle
  | .fnPtr sig => FnSig.occurs_node sig needle
  | .dynamic preds _ _ => Preds.occurs_node preds needle
  | .alias r => Ty.occurs_node r needle
  | _ => false
  termination_by structural t

def Tys.occurs_node (ts : Tys) (needle : Ty) : Bool :=
  match ts with
  | .nil => false
  | .cons t rest => Ty.occurs_node t needle || Tys.occurs_node rest needle
  termination_by structural ts

def FieldDef.occurs_node (f : FieldDef) (needle : Ty) : Bool :=
  match f with
  | .mk ty _ => Ty.occurs_node ty needle
  termination_by structural f

def Fields.occurs_node (fs : Fields) (needle : Ty) : Bool :=
  match fs with
  | .nil => false
  | .cons f rest =>
      FieldDef.occurs_node f needle || Fields.occurs_node rest needle
  termination_by structural fs

def GArgs.occurs_node (args : GArgs) (needle : Ty) : Bool :=
  match args with
  | .nil => false
  | .cons a rest => GArg.occurs_node a needle || GArgs.occurs_node rest needle
  termination_by structural args

def GArg.occurs_node (a : GArg) (needle : Ty) : Bool :=
  match a with
  | .lifetime _ => false
  | .type t => Ty.occurs_node t needle
  | .const c => Cnst.occurs_node c needle
  termination_by structural a

def Cnst.occurs_node (c : Cnst) (needle : Ty) : Bool :=
  match c with
  | .mk _ cty => Ty.occurs_node cty needle
  termination_by structural c

def Preds.occurs_node (ps : Preds) (needle : Ty) : Bool :=
  match ps with
  | .nil => false
  | .cons p rest =>
      Predicate.occurs_node p needle || Preds.occurs_node rest needle
  termination_by structural ps

def Predicate.occurs_node (p : Predicate) (needle : Ty) : Bool :=
  match p with
  | .trait _ args => GArgs.occurs_node args needle
  | .projection _ args term =>
      GArgs.occurs_node args needle || Term.occurs_node term needle
  | .autoTrait _ => false
  termination_by structural p

def Term.occurs_node (tm : Term) (needle : Ty) : Bool :=
  match tm with
  | .ty t => Ty.occurs_node t needle
  | .const c => Cnst.occurs_node c needle
  termination_by structural tm

def FnSig.occurs_node (sig : FnSig) (needle : Ty) : Bool :=
  match sig with
  | .mk ins out _ _ =>
      Tys.occurs_node ins needle || Ty.occurs_node out needle
  termination_by structural sig

end

/-! ## The type normalization pass (TransformTy::fold_ty, source lines
765-952)

The folder's mutable state is modelled by explicit parameters: pw is the
target pointer width (tcx.sess.target.pointer_width), options the
TransformTyOptions, parents the visited-node stack.  The source's push/pop on
self.parents and its save/restore of self.options are balanced, so passing
them functionally is faithful.  bug! becomes none.  The find-first-non-ZST
field followed by folding it (source lines 870-897) is fused into
fold_transparent_fields to keep the recursion structural. -/

mutual

def fold_ty (pw : Nat) (options : TypeIdOptions) (parents : List Ty) :
    Ty → Option Ty
  | .bool =>
      if options.normalize_integers then some (.uint .u8) else some .bool
  | .char =>
      if options.normalize_integers then some (.uint .u32) else some .char
  | .int it =>
      if options.normalize_integers then
        match it with
        | .isize =>
            match pw with
            | 16 => some (.int .i16)
            | 32 => some (.int .i32)
            | 64 => some (.int .i64)
            | 128 => some (.int .i128)
            | _ => none
        | _ => some (.int it)
      else some (.int it)
  | .uint ut =>
      if options.normalize_integers then
        match ut with
        | .usize =>
            match pw with
            | 16 => some (.uint .u16)
            | 32 => some (.uint .u32)
            | 64 => some (.uint .u64)
            | 128 => some (.uint .u128)
            | _ => none
        | _ => some (.uint ut)
      else some (.uint ut)
  | .float ft => some (.float ft)
  | .str => some .str
  | .never => some .never
  | .foreign info => some (.foreign info)
  | .coroutineWitness => some .coroutineWitness
  | .tuple ts =>
      match fold_tys pw options parents ts with
      | some ts2 => some (.tuple ts2)
      | none => none
  | .array e n =>
      match fold_ty pw options parents e with
      | some e2 => some (.array e2 n)
      | none => none
  | .pat e p =>
      match fold_ty pw options parents e with
      | some e2 => some (.pat e2 p)
      | none => none
  | .slice e =>
      match fold_ty pw options parents e with
      | some e2 => some (.slice e2)
      | none => none
  | .adt info fields args =>
      if info.is_c_void then some Ty.unit
      else if info.repr_transparent && info.is_struct
          && !(parents.any (fun x => Ty.teq x (Ty.adt info fields args))) then
        -- Don't transform repr(transparent) types with a user-defined CFI
        -- encoding, to preserve the user-defined CFI encoding.
        if info.cfi_encoding.isSome then
          some (.adt info fields args)
        else
          fold_transparent_fields pw options parents (.adt info fields args)
            fields
      else
        match fold_args pw options parents args with
        | some args2 => some (.adt info fields args2)
        | none => none
  | .fnDef name args =>
      match fold_args pw options parents args with
      | some args2 => some (.fnDef name args2)
      | none => none
  | .closure name args =>
      match fold_args pw options parents args with
      | some args2 => some (.closure name args2)
      | none => none
  | .coroutineClosure name pargs =>
      match fold_args pw options parents pargs with
      | some args2 => some (.coroutineClosure name args2)
      | none => none
  | .coroutine name pargs =>
      match fold_args pw options parents pargs with
      | some args2 => some (.coroutine name args2)
      | none => none
  | .dynamic preds r k =>
      match fold_preds pw options parents preds with
      | some preds2 => some (.dynamic preds2 r k)
      | none => none
  | .ref r p m =>
      if options.generalize_pointers then
        some (.ref .reStatic Ty.unit m)
      else
        match fold_ty pw options parents p with
        | some p2 => some (.ref r p2 m)
        | none => none
  | .rawPtr p m =>
      if options.generalize_pointers then
        some (.rawPtr Ty.unit m)
      else
        match fold_ty pw options parents p with
        | some p2 => some (.rawPtr p2 m)
        | none => none
  | .fnPtr sig =>
      if options.generalize_pointers then
        some (.rawPtr Ty.unit .not)
      else
        match fold_sig pw options parents sig with
        | some sig2 => some (.fnPtr sig2)
        | none => none
  | .alias resolved => fold_ty pw options parents resolved
  | .bound => none
  | .error => none
  | .infer => none
  | .param => none
  | .placeholder => none

/-- Source lines 868-901: find the first field whose layout is not a ZST and
fold its (instantiated) type with this node pushed on the visited stack,
escalating GENERALIZE_POINTERS for that one step when the field is a
pointer kind that structurally contains this node; with no non-ZST field the
aggregate collapses to unit. -/
def fold_transparent_fields (pw : Nat) (options : TypeIdOptions)
    (parents : List Ty) (t : Ty) : Fields → Option Ty
  | .nil => some Ty.unit
  | .cons (.mk fty zst) fs =>
      if zst then fold_transparent_fields pw options parents t fs
      else if fty.is_any_ptr && fty.contains_ty t then
        fold_ty pw { options with generalize_pointers := true }
          (parents ++ [t]) fty
      else
        fold_ty pw options (parents ++ [t]) fty

def fold_tys (pw : Nat) (options : TypeIdOptions) (parents : List Ty) :
    Tys → Option Tys
  | .nil => some .nil
  | .cons t ts =>
      match fold_ty pw options parents t with
      | some t2 =>
          match fold_tys pw options parents ts with
          | some ts2 => some (.cons t2 ts2)
          | none => none
      | none => none

def fold_args (pw : Nat) (options : TypeIdOptions) (parents : List Ty) :
    GArgs → Option GArgs
  | .nil => some .nil
  | .cons a as_ =>
      match fold_arg pw options parents a with
      | some a2 =>
          match fold_args pw options parents as_ with
          | some as2 => some (.cons a2 as2)
          | none => none
      | none => none

def fold_arg (pw : Nat) (options : TypeIdOptions) (parents : List Ty) :
    GArg → Option GArg
  | .lifetime r => some (.lifetime r)
  | .type t =>
      match fold_ty pw options parents t with
      | some t2 => some (.type t2)
      | none => none
  | .const c =>
      match fold_cnst pw options parents c with
      | some c2 => some (.const c2)
      | none => none

def fold_cnst (pw : Nat) (options : TypeIdOptions) (parents : List Ty) :
    Cnst → Option Cnst
  | .mk kind cty =>
      match fold_ty pw options parents cty with
      | some cty2 => some (.mk kind cty2)
      | none => none

def fold_preds (pw : Nat) (options : TypeIdOptions) (parents : List Ty) :
    Preds → Option Preds
  | .nil => some .nil
  | .cons p ps =>
      match fold_pred pw options parents p with
      | some p2 =>
          match fold_preds pw options parents ps with
          | some ps2 => some (.cons p2 ps2)
          | none => none
      | none => none

def fold_pred (pw : Nat) (options : TypeIdOptions) (parents : List Ty) :
    Predicate → Option Predicate
  | .trait name args =>
      match fold_args pw options parents args with
      | some args2 => some (.trait name args2)
      | none => none
  | .projection name args term =>
      match fold_args pw options parents args with
      | some args2 =>
          match fold_term pw options parents term with
          | some term2 => some (.projection name args2 term2)
          | none => none
      | none => none
  | .autoTrait name => some (.autoTrait name)

def fold_term (pw : Nat) (options : TypeIdOptions) (parents : List Ty) :
    Term → Option Term
  | .ty t =>
      match fold_ty pw options parents t with
      | some t2 => some (.ty t2)
      | none => none
  | .const c =>
      match fold_cnst pw options parents c with
      | some c2 => some (.const c2)
      | none => none

def fold_sig (pw : Nat) (options : TypeIdOptions) (parents : List Ty) :
    FnSig → Option FnSig
  | .mk ins out v a =>
      match fold_tys pw options parents ins with
      | some ins2 =>
          match fold_ty pw options parents out with
          | some out2 => some (.mk ins2 out2 v a)
          | none => none
      | none => none

end

end TypeidItaniumCxxAbi

namespace TypeidItaniumCxxAbi

/-! ## Const helpers (rustc_target Integer / Size semantics) -/

/-- Integer::from_int_ty(..).size() in bits; the pointer-sized integer for
isize (pw is tcx.sess.target.pointer_width). -/
def int_width (pw : Nat) : IntTy → Nat
  | .i8 => 8
  | .i16 => 16
  | .i32 => 32
  | .i64 => 64
  | .i128 => 128
  | .isize => pw

/-- Size::sign_extend(bits) as i128: interpret the low w bits as a
two's-complement signed value. -/
def sign_extend (w : Nat) (bits : Nat) : Int :=
  let m := bits % 2 ^ w
  if m < 2 ^ (w - 1) then (m : Int) else (m : Int) - 2 ^ w

/-- Const::try_eval_bool: the evaluated bit pattern read back as a bool; only
0 and 1 convert (ScalarInt::try_into bool), anything else is None and the
source's unwrap aborts. -/
def try_eval_bool (bits : Nat) : Option Bool :=
  match bits with
  | 0 => some false
  | 1 => some true
  | _ => none

/-! ## The encoders (source lines 96-331, 432-763)

Each encoder threads the substitution dictionary and diagnostic count
explicitly and returns none where the source hits bug! or an unwrap failure.
The group's recursion is not structural (encode_ty's FnPtr arm re-enters
encode_fnsig, which encodes the normalization pass's output), so every
function takes fuel, decremented at each nested call; fuel exhaustion also
yields none, and the theorems below are stated so as not to depend on any
particular fuel value. -/

/-- Encodes a region (source lines 270-299). -/
def encode_region (region : RegionKind) (st : EncState) :
    Option (String × EncState) :=
  match region with
  | .reBound debruijn var =>
      let s := "u6regionI"
        ++ (if debruijn > 0 then to_disambiguator debruijn else "")
        ++ toString var ++ "E"
      let (d, s2) := compress st.dict (.region (.reBound debruijn var)) s
      some (s2, { st with dict := d })
  | .reErased =>
      let (d, s2) := compress st.dict (.region .reErased) "u6region"
      some (s2, { st with dict := d })
  | _ => none

/-- str::trim: remove leading and trailing whitespace (modelled on the
character list so that it evaluates by kernel reduction). -/
def str_trim (s : String) : String :=
  ⟨((s.data.dropWhile Char.isWhitespace).reverse.dropWhile
      Char.isWhitespace).reverse⟩

/-- The builtin type letters reserved by the Itanium C++ ABI; user-defined
encodings equal to one of these are not compressed (source lines 569-572). -/
def builtin_types : List String :=
  ["v", "w", "b", "c", "a", "h", "s", "t", "i", "j", "l", "m", "x", "y",
   "n", "o", "f", "d", "e", "g", "z", "Dh"]

mutual

/-- Encodes a ty::Ty (source lines 432-763). -/
def encode_ty : Nat → Nat → Ty → EncState → TypeIdOptions →
    Option (String × EncState)
  | 0, _, _, _, _ => none
  | fuel + 1, pw, t, st, options =>
    match t with
    | .bool => some ("b", st)
    | .int it =>
        let s := match it with
          | .i8 => "u2i8"
          | .i16 => "u3i16"
          | .i32 => "u3i32"
          | .i64 => "u3i64"
          | .i128 => "u4i128"
          | .isize => "u5isize"
        let (d, s2) := compress st.dict (.ty (.int it) .none) s
        some (s2, { st with dict := d })
    | .uint ut =>
        let s := match ut with
          | .u8 => "u2u8"
          | .u16 => "u3u16"
          | .u32 => "u3u32"
          | .u64 => "u3u64"
          | .u128 => "u4u128"
          | .usize => "u5usize"
        let (d, s2) := compress st.dict (.ty (.uint ut) .none) s
        some (s2, { st with dict := d })
    | .float ft =>
        some (match ft with
          | .f16 => "Dh"
          | .f32 => "f"
          | .f64 => "d"
          | .f128 => "g", st)
    | .char =>
        let (d, s2) := compress st.dict (.ty .char .none) "u4char"
        some (s2, { st with dict := d })
    | .str =>
        let (d, s2) := compress st.dict (.ty .str .none) "u3str"
        some (s2, { st with dict := d })
    | .never =>
        let (d, s2) := compress st.dict (.ty .never .none) "u5never"
        some (s2, { st with dict := d })
    -- () in Rust is equivalent to the void return type in C (ty.is_unit())
    | .tuple .nil => some ("v", st)
    | .tuple tys =>
        match encode_tys fuel pw tys st options with
        | some (inner, st1) =>
            let s := "u5tupleI" ++ inner ++ "E"
            let (d, s2) := compress st1.dict (.ty (.tuple tys) .none) s
            some (s2, { st1 with dict := d })
        | none => none
    | .array e n =>
        match encode_ty fuel pw e st options with
        | some (es, st1) =>
            let s := "A" ++ toString n ++ es
            let (d, s2) := compress st1.dict (.ty (.array e n) .none) s
            some (s2, { st1 with dict := d })
        | none => none
    | .pat e p =>
        match encode_ty fuel pw e st options with
        | some (es, st1) =>
            let s := "u3patI" ++ es ++ p ++ "E"
            let (d, s2) := compress st1.dict (.ty (.pat e p) .none) s
            some (s2, { st1 with dict := d })
        | none => none
    | .slice e =>
        match encode_ty fuel pw e st options with
        | some (es, st1) =>
            let s := "u5sliceI" ++ es ++ "E"
            let (d, s2) := compress st1.dict (.ty (.slice e) .none) s
            some (s2, { st1 with dict := d })
        | none => none
    | .adt info fields args =>
        match info.cfi_encoding with
        | some value_opt =>
            match value_opt with
            | some value_str =>
                let strv := str_trim value_str
                if !strv.isEmpty then
                  if !(builtin_types.contains strv) then
                    let (d, s2) :=
                      compress st.dict (.ty (.adt info fields args) .none) strv
                    some (s2, { st with dict := d })
                  else
                    some (strv, st)
                else
                  -- invalid cfi_encoding: recoverable diagnostic, the
                  -- component stays empty
                  some ("", { st with diags := st.diags + 1 })
            | none => none
        | none =>
            if options.generalize_repr_c && info.repr_c then
              let name := info.item_name
              let s := toString name.length ++ name
              let (d, s2) :=
                compress st.dict (.ty (.adt info fields args) .none) s
              some (s2, { st with dict := d })
            else
              let name := info.name
              match encode_args fuel pw args st options with
              | some (as_, st1) =>
                  let s := "u" ++ toString name.length ++ name ++ as_
                  let (d, s2) :=
                    compress st1.dict (.ty (.adt info fields args) .none) s
                  some (s2, { st1 with dict := d })
              | none => none
    | .foreign info =>
        match info.cfi_encoding with
        | some value_opt =>
            match value_opt with
            | some value_str =>
                if !(str_trim value_str).isEmpty then
                  let (d, s2) :=
                    compress st.dict (.ty (.foreign info) .none) (str_trim value_str)
                  some (s2, { st with dict := d })
                else
                  let (d, s2) :=
                    compress st.dict (.ty (.foreign info) .none) ""
                  some (s2, { st with dict := d, diags := st.diags + 1 })
            | none => none
        | none =>
            let name := info.item_name
            let s := toString name.length ++ name
            let (d, s2) := compress st.dict (.ty (.foreign info) .none) s
            some (s2, { st with dict := d })
    | .fnDef name args =>
        match encode_args fuel pw args st options with
        | some (as_, st1) =>
            let s := "u" ++ toString name.length ++ name ++ as_
            let (d, s2) := compress st1.dict (.ty (.fnDef name args) .none) s
            some (s2, { st1 with dict := d })
        | none => none
    | .closure name args =>
        match encode_args fuel pw args st options with
        | some (as_, st1) =>
            let s := "u" ++ toString name.length ++ name ++ as_
            let (d, s2) := compress st1.dict (.ty (.closure name args) .none) s
            some (s2, { st1 with dict := d })
        | none => none
    | .coroutineClosure name pargs =>
        match encode_args fuel pw pargs st options with
        | some (as_, st1) =>
            let s := "u" ++ toString name.length ++ name ++ as_
            let (d, s2) :=
              compress st1.dict (.ty (.coroutineClosure name pargs) .none) s
            some (s2, { st1 with dict := d })
        | none => none
    | .coroutine name pargs =>
        match encode_args fuel pw pargs st options with
        | some (as_, st1) =>
            let s := "u" ++ toString name.length ++ name ++ as_
            let (d, s2) :=
              compress st1.dict (.ty (.coroutine name pargs) .none) s
            some (s2, { st1 with dict := d })
        | none => none
    | .ref region pointee m =>
        match encode_ty fuel pw pointee st options with
        | some (ps, st1) =>
            let s := "u3refI" ++ ps ++ "E"
            let (d1, s1) :=
              compress st1.dict (.ty (.ref region pointee .not) .none) s
            let st2 := { st1 with dict := d1 }
            match m with
            | .not => some (s1, st2)
            | .mut =>
                let smut := "U3mut" ++ s1
                let (d2, s3) :=
                  compress st2.dict (.ty (.ref region pointee .mut) .mut) smut
                some (s3, { st2 with dict := d2 })
        | none => none
    | .rawPtr pointee m =>
        match encode_ty fuel pw pointee st options with
        | some (ps, st1) =>
            match m with
            | .not =>
                let sk := "K" ++ ps
                let (d1, s1) := compress st1.dict (.ty pointee .const) sk
                let sp := "P" ++ s1
                let (d2, s2) :=
                  compress d1 (.ty (.rawPtr pointee .not) .none) sp
                some (s2, { st1 with dict := d2 })
            | .mut =>
                let sp := "P" ++ ps
                let (d2, s2) :=
                  compress st1.dict (.ty (.rawPtr pointee .mut) .none) sp
                some (s2, { st1 with dict := d2 })
        | none => none
    | .fnPtr sig =>
        match encode_fnsig fuel pw sig st TypeIdOptions.empty with
        | some (fs, st1) =>
            let s := "P" ++ fs
            let (d, s2) := compress st1.dict (.ty (.fnPtr sig) .none) s
            some (s2, { st1 with dict := d })
        | none => none
    | .dynamic preds region kind =>
        match encode_predicates fuel pw preds st options with
        | some (ps, st1) =>
            match encode_region region st1 with
            | some (rs, st2) =>
                let s := (match kind with
                  | .dyn => "u3dynI"
                  | .dynStar => "u7dynstarI") ++ ps ++ rs ++ "E"
                let (d, s2) :=
                  compress st2.dict (.ty (.dynamic preds region kind) .none) s
                some (s2, { st2 with dict := d })
            | none => none
        | none => none
    | .param =>
        let (d, s2) := compress st.dict (.ty .param .none) "u5param"
        some (s2, { st with dict := d })
    | .alias _ => none
    | .bound => none
    | .error => none
    | .coroutineWitness => none
    | .infer => none
    | .placeholder => none

  termination_by structural fuel _ _ _ _ => fuel
/-- Sequential encoding of tuple element types (the loop in the Tuple arm). -/
def encode_tys : Nat → Nat → Tys → EncState → TypeIdOptions →
    Option (String × EncState)
  | 0, _, _, _, _ => none
  | fuel + 1, pw, ts, st, options =>
    match ts with
    | .nil => some ("", st)
    | .cons t rest =>
        match encode_ty fuel pw t st options with
        | some (s1, st1) =>
            match encode_tys fuel pw rest st1 options with
            | some (s2, st2) => some (s1 ++ s2, st2)
            | none => none
        | none => none

  termination_by structural fuel _ _ _ _ => fuel
/-- Encodes generic args (source lines 304-331): empty args encode to
nothing, otherwise an I..E-delimited sequence. -/
def encode_args : Nat → Nat → GArgs → EncState → TypeIdOptions →
    Option (String × EncState)
  | 0, _, _, _, _ => none
  | fuel + 1, pw, args, st, options =>
    match args with
    | .nil => some ("", st)
    | _ =>
        match encode_args_go fuel pw args st options with
        | some (s, st1) => some ("I" ++ s ++ "E", st1)
        | none => none

  termination_by structural fuel _ _ _ _ => fuel
/-- The per-argument loop of encode_args. -/
def encode_args_go : Nat → Nat → GArgs → EncState → TypeIdOptions →
    Option (String × EncState)
  | 0, _, _, _, _ => none
  | fuel + 1, pw, args, st, options =>
    match args with
    | .nil => some ("", st)
    | .cons a rest =>
        let head :=
          match a with
          | .lifetime r => encode_region r st
          | .type t => encode_ty fuel pw t st options
          | .const c => encode_const fuel pw c st options
        match head with
        | some (s1, st1) =>
            match encode_args_go fuel pw rest st1 options with
            | some (s2, st2) => some (s1 ++ s2, st2)
            | none => none
        | none => none

  termination_by structural fuel _ _ _ _ => fuel
/-- Encodes a const as a literal argument (source lines 96-158). -/
def encode_const : Nat → Nat → Cnst → EncState → TypeIdOptions →
    Option (String × EncState)
  | 0, _, _, _, _ => none
  | fuel + 1, pw, .mk kind cty, st, options =>
    match kind with
    | .param =>
        -- L<element-type>E for an unresolved const parameter
        match encode_ty fuel pw cty st options with
        | some (ts, st1) =>
            let s := "L" ++ ts ++ "E"
            let (d, s2) := compress st1.dict (.const (.mk .param cty)) s
            some (s2, { st1 with dict := d })
        | none => none
    | .value bits =>
        -- L<element-type>[n]<element-value>E for a literal argument
        match encode_ty fuel pw cty st options with
        | some (ts, st1) =>
            let valStr : Option String :=
              match cty with
              | .int it =>
                  let val := sign_extend (int_width pw it) bits
                  some ((if val < 0 then "n" else "") ++ toString val)
              | .uint _ => some (toString bits)
              | .bool =>
                  match try_eval_bool bits with
                  | some val => some (toString val)
                  | none => none
              | _ => none
            match valStr with
            | some v =>
                let s := "L" ++ ts ++ v ++ "E"
                let (d, s2) :=
                  compress st1.dict (.const (.mk (.value bits) cty)) s
                some (s2, { st1 with dict := d })
            | none => none
        | none => none

  termination_by structural fuel _ _ _ _ => fuel
/-- Encodes one existential predicate (source lines 219-250). -/
def encode_predicate : Nat → Nat → Predicate → EncState → TypeIdOptions →
    Option (String × EncState)
  | 0, _, _, _, _ => none
  | fuel + 1, pw, p, st, options =>
    match p with
    | .trait name args =>
        match encode_args fuel pw args st options with
        | some (as_, st1) =>
            let s := "u" ++ toString name.length ++ name ++ as_
            let (d, s2) := compress st1.dict (.predicate (.trait name args)) s
            some (s2, { st1 with dict := d })
        | none => none
    | .projection name args term =>
        match encode_args fuel pw args st options with
        | some (as_, st1) =>
            let termRes :=
              match term with
              | .ty t => encode_ty fuel pw t st1 options
              | .const c => encode_const fuel pw c st1 options
            match termRes with
            | some (tstr, st2) =>
                let s := "u" ++ toString name.length ++ name ++ as_ ++ tstr
                let (d, s2) :=
                  compress st2.dict
                    (.predicate (.projection name args term)) s
                some (s2, { st2 with dict := d })
            | none => none
        | none => none
    | .autoTrait name =>
        let s := "u" ++ toString name.length ++ name
        let (d, s2) := compress st.dict (.predicate (.autoTrait name)) s
        some (s2, { st with dict := d })

  termination_by structural fuel _ _ _ _ => fuel
/-- Encodes a predicate list in order (source lines 254-267). -/
def encode_predicates : Nat → Nat → Preds → EncState → TypeIdOptions →
    Option (String × EncState)
  | 0, _, _, _, _ => none
  | fuel + 1, pw, ps, st, options =>
    match ps with
    | .nil => some ("", st)
    | .cons p rest =>
        match encode_predicate fuel pw p st options with
        | some (s1, st1) =>
            match encode_predicates fuel pw rest st1 options with
            | some (s2, st2) => some (s1 ++ s2, st2)
            | none => none
        | none => none

  termination_by structural fuel _ _ _ _ => fuel
/-- Encodes a FnSig (source lines 163-215): F<return><params>[z]E, with the
GENERALIZE_REPR_C encode option inserted exactly when the signature's ABI is
the C one, each component type first passed through the normalization pass
with the caller's (transform) options. -/
def encode_fnsig : Nat → Nat → FnSig → EncState → TypeIdOptions →
    Option (String × EncState)
  | 0, _, _, _, _ => none
  | fuel + 1, pw, sig, st, options =>
    let encode_ty_options :=
      match sig.abi with
      | .c => { options with generalize_repr_c := true }
      | .rust => { options with generalize_repr_c := false }
    match fold_ty pw options [] sig.output with
    | some rty =>
        match encode_ty fuel pw rty st encode_ty_options with
        | some (rs, st1) =>
            match sig.inputs with
            | .nil =>
                -- Empty parameter lists, whether declared as () or
                -- conventionally as (void), are encoded with a void
                -- parameter specifier "v" (unless variadic).
                let tail := if sig.c_variadic then "z" else "v"
                some ("F" ++ rs ++ tail ++ "E", st1)
            | tys =>
                match encode_sig_inputs fuel pw tys st1 options
                    encode_ty_options with
                | some (ps, st2) =>
                    let tail := if sig.c_variadic then "z" else ""
                    some ("F" ++ rs ++ ps ++ tail ++ "E", st2)
                | none => none
        | none => none
    | none => none

  termination_by structural fuel _ _ _ _ => fuel
/-- The parameter loop of encode_fnsig: fold each input with the transform
options, encode it with the encode options. -/
def encode_sig_inputs : Nat → Nat → Tys → EncState → TypeIdOptions →
    TypeIdOptions → Option (String × EncState)
  | 0, _, _, _, _, _ => none
  | fuel + 1, pw, ts, st, transform_options, encode_ty_options =>
    match ts with
    | .nil => some ("", st)
    | .cons t rest =>
        match fold_ty pw transform_options [] t with
        | some t2 =>
            match encode_ty fuel pw t2 st encode_ty_options with
            | some (s1, st1) =>
                match encode_sig_inputs fuel pw rest st1 transform_options
                    encode_ty_options with
                | some (s2, st2) => some (s1 ++ s2, st2)
                | none => none
            | none => none
        | none => none

  termination_by structural fuel _ _ _ _ _ => fuel
end

end TypeidItaniumCxxAbi

namespace TypeidItaniumCxxAbi

/-! ## typeid_for_fnabi (source lines 957-1038) -/

/-- One argument of a FnAbi: its pass mode and its layout's type. -/
structure ArgAbi where
  mode : PassMode
  ty : Ty
deriving DecidableEq

/-- The function-ABI descriptor read by typeid_for_fnabi: argument ABIs,
return ABI, c-variadic flag, the number of fixed (non-variadic) arguments,
and the calling convention.  rustc guarantees fixed_count is at most
args.len(); the variadic loop below reads exactly the first fixed_count
arguments. -/
structure FnAbi where
  args : List ArgAbi
  ret : ArgAbi
  c_variadic : Bool
  fixed_count : Nat
  conv : Conv
deriving DecidableEq

/-- The argument loop bodies of typeid_for_fnabi: each argument's type is
passed through the normalization pass, then encoded. -/
def encode_fnabi_args (fuel pw : Nat) (transform_options : TypeIdOptions)
    (encode_ty_options : TypeIdOptions) :
    List ArgAbi → EncState → Option (String × EncState)
  | [], st => some ("", st)
  | arg :: rest, st =>
      match fold_ty pw transform_options [] arg.ty with
      | some t2 =>
          match encode_ty fuel pw t2 st encode_ty_options with
          | some (s1, st1) =>
              match encode_fnabi_args fuel pw transform_options
                  encode_ty_options rest st1 with
              | some (s2, st2) => some (s1 ++ s2, st2)
              | none => none
          | none => none
      | none => none

/-- Returns a type metadata identifier for the specified FnAbi (source lines
957-1038).  The substitution dictionary is created fresh here: its scope is
this one computation. -/
def typeid_for_fnabi (fuel pw : Nat) (fn_abi : FnAbi)
    (options : TypeIdOptions) : Option String :=
  let encode_ty_options :=
    match fn_abi.conv with
    | .c => { options with generalize_repr_c := true }
    | .other => { options with generalize_repr_c := false }
  match fold_ty pw options [] fn_abi.ret.ty with
  | some rty =>
      match encode_ty fuel pw rty ⟨[], 0⟩ encode_ty_options with
      | some (rs, st1) =>
          let params :=
            if !fn_abi.c_variadic then
              -- Arguments whose pass mode is Ignore are erased as we go; a
              -- fully empty parameter list is encoded as "v".
              match fn_abi.args.filter
                  (fun arg => arg.mode != PassMode.ignore) with
              | [] => some ("v", st1)
              | live => encode_fnabi_args fuel pw options encode_ty_options
                  live st1
            else
              match encode_fnabi_args fuel pw options encode_ty_options
                  ((fn_abi.args.take fn_abi.fixed_count).filter
                    (fun arg => arg.mode != PassMode.ignore)) st1 with
              | some (ps, st2) => some (ps ++ "z", st2)
              | none => none
          match params with
          | some (ps, _) =>
              some ("_ZTSF" ++ rs ++ ps ++ "E"
                ++ (if options.normalize_integers then ".normalized" else "")
                ++ (if options.generalize_pointers then ".generalized"
                    else ""))
          | none => none
      | none => none
  | none => none

end TypeidItaniumCxxAbi

namespace TypeidItaniumCxxAbi

/-! # Claim theorems -/

/-- Appending the empty string on the right is the identity. -/
theorem string_append_empty (x : String) : x ++ "" = x :=
  String.ext (by simp [String.data_append])

/-- C1: compress, on a key already present in the substitution dictionary,
discards the buffer and replaces it with "S" followed by the sequence id of
the key's stored insertion index and an underscore, leaving the dictionary
unchanged; on an absent key it inserts the key at an index equal to the
dictionary's size before insertion and leaves the buffer unchanged. -/
theorem compress_spec (dict : List DictKey) (key : DictKey) (buf : String) :
    (∀ i, dict.findIdx? (· == key) = some i →
      compress dict key buf = (dict, "S" ++ to_seq_id i ++ "_")) ∧
    (dict.findIdx? (· == key) = none →
      compress dict key buf = (dict ++ [key], buf) ∧
      (dict ++ [key]).findIdx? (· == key) = some dict.length) := by
  refine ⟨fun i h => by simp [compress, h], fun h => ⟨by simp [compress, h], ?_⟩⟩
  simp [List.findIdx?_append, h]

/-- C1 witness: a hit on the key stored at index 1 replaces the buffer by
"S0_" and keeps the dictionary; a miss appends the key at the old size. -/
theorem compress_spec_witness :
    compress [.ty .bool .none, .ty .str .none] (.ty .str .none) "u3str"
      = ([.ty .bool .none, .ty .str .none], "S0_") ∧
    compress [.ty .bool .none] (.ty .str .none) "u3str"
      = ([.ty .bool .none, .ty .str .none], "u3str") := by
  refine ⟨?_, ?_⟩
  · have h := (compress_spec [.ty .bool .none, .ty .str .none]
      (.ty .str .none) "u3str").1 1 (by decide)
    simpa using h
  · have h := ((compress_spec [.ty .bool .none]
      (.ty .str .none) "u3str").2 (by decide)).1
    simpa using h

/-- C2 counterexample: to_seq_id(1) is "0" (the second Itanium substitution
is S0_), not "A" as the claim states. -/
theorem to_seq_id_one_cex : to_seq_id 1 ≠ "A" := by decide

/-- C2 amended: to_disambiguator(0) = "s_", to_disambiguator(1) = "s0_" and
in general to_disambiguator(n) for positive n is "s" ++ base62(n-1) ++ "_";
to_seq_id(0) = "", to_seq_id(1) = "0", to_seq_id(36) = "Z", to_seq_id(37) =
"10", and in general to_seq_id(n) for positive n is the uppercased base-36
rendering of n-1 (digit alphabet 0-9 then A-Z); both functions are total over
the naturals. -/
theorem codec_spec :
    to_disambiguator 0 = "s_" ∧ to_disambiguator 1 = "s0_" ∧
    (∀ n : Nat, 0 < n →
      to_disambiguator n = "s" ++ base_n_encode (n - 1) 62 ++ "_") ∧
    to_seq_id 0 = "" ∧ to_seq_id 1 = "0" ∧ to_seq_id 36 = "Z" ∧
    to_seq_id 37 = "10" ∧
    (∀ n : Nat, 0 < n → to_seq_id n = str_to_upper (base_n_encode (n - 1) 36)) := by
  refine ⟨by decide, by decide, fun n hn => ?_, by decide, by decide,
    by decide, by decide, fun n hn => ?_⟩
  · match n, hn with
    | m + 1, _ => rfl
  · match n, hn with
    | m + 1, _ => rfl

/-- C2 witness: the general clauses of codec_spec evaluated at 12 and 38. -/
theorem codec_spec_witness :
    0 < 12 ∧ to_disambiguator 12 = "s" ++ base_n_encode 11 62 ++ "_" ∧
    to_seq_id 38 = str_to_upper (base_n_encode 37 36) :=
  ⟨by decide, codec_spec.2.2.1 12 (by decide),
    codec_spec.2.2.2.2.2.2.2 38 (by decide)⟩

/-- C9: encode_ty is fatal (bug!) on alias, bound-variable, error,
coroutine-witness, inference-variable and placeholder nodes, for every fuel,
pointer width, dictionary state and option set: it never returns an
identifier string for such a node. -/
theorem encode_ty_fatal_on_unresolved (fuel pw : Nat) (r : Ty)
    (st : EncState) (options : TypeIdOptions) :
    encode_ty fuel pw (.alias r) st options = none ∧
    encode_ty fuel pw .bound st options = none ∧
    encode_ty fuel pw .error st options = none ∧
    encode_ty fuel pw .coroutineWitness st options = none ∧
    encode_ty fuel pw .infer st options = none ∧
    encode_ty fuel pw .placeholder st options = none := by
  cases fuel <;> simp [encode_ty]

/-- C5: the code's own behaviour at the disputed inputs.  A bool const with
bit pattern 0 encodes as "LbfalseE" and with 1 as "LbtrueE" (the Display
rendering of Rust's bool), not as the digits 0/1 the claim and the source's
own comment state; a negative i8 literal renders its signed decimal value
after the "n" marker, giving "Lu2i8n-1E"; a char const value is fatal even
though the claim (and the source comment) allow char. -/
theorem encode_const_disputed_inputs :
    encode_const 20 64 (.mk (.value 0) .bool) ⟨[], 0⟩ .empty
      = some ("LbfalseE", ⟨[.const (.mk (.value 0) .bool)], 0⟩) ∧
    encode_const 20 64 (.mk (.value 1) .bool) ⟨[], 0⟩ .empty
      = some ("LbtrueE", ⟨[.const (.mk (.value 1) .bool)], 0⟩) ∧
    encode_const 20 64 (.mk (.value 255) (.int .i8)) ⟨[], 0⟩ .empty
      = some ("Lu2i8n-1E",
          ⟨[.ty (.int .i8) .none, .const (.mk (.value 255) (.int .i8))], 0⟩) ∧
    encode_const 20 64 (.mk (.value 97) .char) ⟨[], 0⟩ .empty = none := by
  decide


/-- C6 counterexample: a user-supplied override "3foo" does not collide with
any reserved builtin code, yet encoding the aggregate from an empty
dictionary adds the type's key to the dictionary (the claim says a
non-colliding override is not added). -/
theorem cfi_override_dict_cex :
    encode_ty 20 64
      (.adt ⟨"t1", "t1", some (some "3foo"), false, false, true, false⟩
        .nil .nil) ⟨[], 0⟩ .empty
      = some ("3foo",
          ⟨[.ty (.adt ⟨"t1", "t1", some (some "3foo"), false, false, true,
            false⟩ .nil .nil) .none], 0⟩) ∧
    ([DictKey.ty (.adt ⟨"t1", "t1", some (some "3foo"), false, false, true,
      false⟩ .nil .nil) .none] : List DictKey) ≠ [] := by
  decide

/-- C6 amended: a non-empty trimmed override string is used verbatim and IS
added to the compression dictionary unless it collides with one of the
reserved builtin type codes, in which case it is used verbatim without being
added; an empty override string is a recoverable error: one diagnostic is
emitted, the encoded fragment is left empty, and the result is not fatal. -/
theorem cfi_override_spec (fuel pw : Nat) (info : AdtInfo) (fields : Fields)
    (args : GArgs) (st : EncState) (options : TypeIdOptions)
    (value_str : String)
    (hattr : info.cfi_encoding = some (some value_str)) :
    ((str_trim value_str).isEmpty = false →
      builtin_types.contains (str_trim value_str) = false →
      DictKey.ty (.adt info fields args) .none ∉ st.dict →
      encode_ty (fuel + 1) pw (.adt info fields args) st options
        = some (str_trim value_str,
            { st with
              dict := st.dict ++ [.ty (.adt info fields args) .none] })) ∧
    ((str_trim value_str).isEmpty = false →
      builtin_types.contains (str_trim value_str) = true →
      encode_ty (fuel + 1) pw (.adt info fields args) st options
        = some (str_trim value_str, st)) ∧
    ((str_trim value_str).isEmpty = true →
      encode_ty (fuel + 1) pw (.adt info fields args) st options
        = some ("", { st with diags := st.diags + 1 })) := by
  refine ⟨fun hne hnb hmem => ?_, fun hne hb => ?_, fun he => ?_⟩
  · have hidx : st.dict.findIdx?
        (· == DictKey.ty (.adt info fields args) .none) = none := by
      rw [List.findIdx?_eq_none_iff]
      intro x hx
      rcases eq_or_ne x (DictKey.ty (.adt info fields args) .none) with
        hxeq | hxne
      · exact absurd (hxeq ▸ hx) hmem
      · simpa using hxne
    have hnb2 : str_trim value_str ∉ builtin_types := by
      simpa using hnb
    simp [encode_ty, hattr, hne, hnb2, compress, hidx]
  · have hb2 : str_trim value_str ∈ builtin_types := by
      simpa using hb
    simp [encode_ty, hattr, hne, hb2]
  · simp [encode_ty, hattr, he]

/-- C6 witness: cfi_override_spec applied to a non-builtin override "3foo"
(added to the dictionary), a builtin-colliding override "v" (not added), and
a whitespace-only override (diagnostic, empty fragment, no failure). -/
theorem cfi_override_spec_witness :
    encode_ty 20 64
      (.adt ⟨"t2", "t2", some (some "3bar"), false, false, true, false⟩
        .nil .nil) ⟨[], 0⟩ .empty
      = some ("3bar",
          ⟨[.ty (.adt ⟨"t2", "t2", some (some "3bar"), false, false, true,
            false⟩ .nil .nil) .none], 0⟩) ∧
    encode_ty 20 64
      (.adt ⟨"t3", "t3", some (some "v"), false, false, true, false⟩
        .nil .nil) ⟨[], 0⟩ .empty = some ("v", ⟨[], 0⟩) ∧
    encode_ty 20 64
      (.adt ⟨"t4", "t4", some (some " "), false, false, true, false⟩
        .nil .nil) ⟨[], 0⟩ .empty = some ("", ⟨[], 1⟩) := by
  refine ⟨?_, ?_, ?_⟩
  · have h := (cfi_override_spec 19 64
      ⟨"t2", "t2", some (some "3bar"), false, false, true, false⟩
      .nil .nil ⟨[], 0⟩ .empty "3bar" rfl).1 (by decide) (by decide)
      (by decide)
    simpa using h
  · have h := (cfi_override_spec 19 64
      ⟨"t3", "t3", some (some "v"), false, false, true, false⟩
      .nil .nil ⟨[], 0⟩ .empty "v" rfl).2.1 (by decide) (by decide)
    simpa using h
  · have h := (cfi_override_spec 19 64
      ⟨"t4", "t4", some (some " "), false, false, true, false⟩
      .nil .nil ⟨[], 0⟩ .empty " " rfl).2.2 (by decide)
    simpa using h

/-- C3: encode_fnsig encodes an empty, non-variadic parameter list as the
single specifier "v"; a variadic signature appends "z" after its encoded
fixed parameters, which are absent (no "v") when the fixed list is empty;
and a function ABI with no parameters and unit return type, encoded with no
options, yields exactly "_ZTSFvvE". -/
theorem encode_fnsig_empty_variadic_spec :
    (∀ fuel pw sig st options s st2,
      encode_fnsig fuel pw sig st options = some (s, st2) →
      ((sig.inputs = .nil → sig.c_variadic = false →
          ∃ r, s = "F" ++ r ++ "v" ++ "E") ∧
       (sig.c_variadic = true →
          ∃ r ps, s = "F" ++ r ++ ps ++ "z" ++ "E" ∧
            (sig.inputs = .nil → ps = "")))) ∧
    typeid_for_fnabi 20 64 ⟨[], ⟨.direct, .tuple .nil⟩, false, 0, .other⟩
      .empty = some "_ZTSFvvE" := by
  refine ⟨?_, by decide⟩
  intro fuel pw sig st options s st2 h
  match fuel with
  | 0 => exact absurd h (by simp [encode_fnsig])
  | fuel + 1 =>
    simp only [encode_fnsig] at h
    split at h
    case h_2 => exact absurd h (by simp)
    split at h
    case h_2 => exact absurd h (by simp)
    rename_i rty hfold pr rs st1 henc
    split at h
    · -- sig.inputs = Tys.nil
      rename_i hin
      refine ⟨fun _ hvar => ?_, fun hvar => ?_⟩
      · rw [hvar] at h
        simp only [Bool.false_eq_true, if_false, Option.some.injEq,
          Prod.mk.injEq] at h
        exact ⟨rs, h.1.symm⟩
      · rw [hvar] at h
        simp only [if_true, Option.some.injEq, Prod.mk.injEq] at h
        refine ⟨rs, "", ?_, fun _ => rfl⟩
        rw [← h.1, string_append_empty]
    · -- sig.inputs is not Tys.nil
      rename_i hne
      split at h
      case h_2 => exact absurd h (by simp)
      refine ⟨fun hnil _ => absurd hnil hne, fun hvar => ?_⟩
      rw [hvar] at h
      simp only [if_true, Option.some.injEq, Prod.mk.injEq] at h
      exact ⟨rs, _, h.1.symm, fun hnil => absurd hnil hne⟩

/-- C3 witness: encode_fnsig_empty_variadic_spec applied to the empty
non-variadic Rust-ABI signature returning unit, whose encoding is "FvvE",
and to the empty variadic C-ABI signature, whose encoding is "FvzE". -/
theorem encode_fnsig_empty_variadic_spec_witness :
    (∃ r, ("FvvE" : String) = "F" ++ r ++ "v" ++ "E") ∧
    (∃ r ps, ("FvzE" : String) = "F" ++ r ++ ps ++ "z" ++ "E" ∧
      ((Tys.nil : Tys) = .nil → ps = "")) := by
  refine ⟨?_, ?_⟩
  · exact (encode_fnsig_empty_variadic_spec.1 20 64
      (.mk .nil (.tuple .nil) false .rust) ⟨[], 0⟩ .empty "FvvE" ⟨[], 0⟩
      (by decide)).1 rfl rfl
  · exact (encode_fnsig_empty_variadic_spec.1 20 64
      (.mk .nil (.tuple .nil) true .c) ⟨[], 0⟩ .empty "FvzE" ⟨[], 0⟩
      (by decide)).2 rfl

/-- C10: typeid_for_fnabi omits every parameter whose pass mode is Ignore:
for a non-variadic ABI the identifier equals the one computed from the
filtered argument list; when every parameter is ignored it equals the
identifier of the same ABI with no arguments at all, and the parameter
section is the single specifier "v"; for a variadic ABI the identifier
equals the one computed from the non-ignored arguments among the first
fixed_count, the trailing "z" being kept. -/
theorem typeid_for_fnabi_skips_ignored :
    (∀ fuel pw fn_abi options, fn_abi.c_variadic = false →
      typeid_for_fnabi fuel pw fn_abi options =
        typeid_for_fnabi fuel pw
          { fn_abi with
            args := fn_abi.args.filter (fun a => a.mode != PassMode.ignore) }
          options) ∧
    (∀ fuel pw fn_abi options, fn_abi.c_variadic = false →
      (∀ a ∈ fn_abi.args, a.mode = PassMode.ignore) →
      typeid_for_fnabi fuel pw fn_abi options =
        typeid_for_fnabi fuel pw { fn_abi with args := [] } options) ∧
    (∀ fuel pw fn_abi options s, fn_abi.c_variadic = false →
      (∀ a ∈ fn_abi.args, a.mode = PassMode.ignore) →
      typeid_for_fnabi fuel pw fn_abi options = some s →
      ∃ r, s = "_ZTSF" ++ r ++ "v" ++ "E"
        ++ (if options.normalize_integers then ".normalized" else "")
        ++ (if options.generalize_pointers then ".generalized" else "")) ∧
    (∀ fuel pw fn_abi options, fn_abi.c_variadic = true →
      typeid_for_fnabi fuel pw fn_abi options =
        typeid_for_fnabi fuel pw
          { fn_abi with
            args := (fn_abi.args.take fn_abi.fixed_count).filter
              (fun a => a.mode != PassMode.ignore),
            fixed_count := ((fn_abi.args.take fn_abi.fixed_count).filter
              (fun a => a.mode != PassMode.ignore)).length }
          options) := by
  have hidem : ∀ (l : List ArgAbi),
      (l.filter (fun a => a.mode != PassMode.ignore)).filter
        (fun a => a.mode != PassMode.ignore)
      = l.filter (fun a => a.mode != PassMode.ignore) := by
    intro l
    rw [List.filter_filter]
    simp
  refine ⟨fun fuel pw fn_abi options hvar => ?_,
    fun fuel pw fn_abi options hvar hall => ?_,
    fun fuel pw fn_abi options s hvar hall h => ?_,
    fun fuel pw fn_abi options hvar => ?_⟩
  · simp [typeid_for_fnabi, hvar, hidem]
  · have hnil : fn_abi.args.filter (fun a => a.mode != PassMode.ignore)
        = [] := by
      rw [List.filter_eq_nil_iff]
      intro a ha
      simp [hall a ha]
    simp [typeid_for_fnabi, hvar, hnil]
  · have hnil : fn_abi.args.filter (fun a => a.mode != PassMode.ignore)
        = [] := by
      rw [List.filter_eq_nil_iff]
      intro a ha
      simp [hall a ha]
    simp only [typeid_for_fnabi, hvar, hnil] at h
    split at h
    case h_2 => exact absurd h (by simp)
    split at h
    case h_2 => exact absurd h (by simp)
    rename_i rty hfold pr rs st1 henc
    simp only [Bool.not_false, if_true, Option.some.injEq] at h
    exact ⟨rs, h.symm⟩
  · have htake : ∀ (l : List ArgAbi), l.take l.length = l :=
      fun l => List.take_length l
    simp [typeid_for_fnabi, hvar, htake, hidem]

/-- C10 witness: typeid_for_fnabi_skips_ignored applied to a non-variadic
unit-returning ABI with one ignored argument. -/
theorem typeid_for_fnabi_skips_ignored_witness :
    typeid_for_fnabi 20 64
      ⟨[⟨.ignore, .bool⟩], ⟨.direct, .tuple .nil⟩, false, 1, .other⟩ .empty
      = typeid_for_fnabi 20 64
          ⟨[], ⟨.direct, .tuple .nil⟩, false, 1, .other⟩ .empty ∧
    (∃ r, ("_ZTSFvvE" : String) = "_ZTSF" ++ r ++ "v" ++ "E"
      ++ (if TypeIdOptions.empty.normalize_integers then ".normalized"
          else "")
      ++ (if TypeIdOptions.empty.generalize_pointers then ".generalized"
          else "")) := by
  constructor
  · exact typeid_for_fnabi_skips_ignored.2.1 20 64
      ⟨[⟨.ignore, .bool⟩], ⟨.direct, .tuple .nil⟩, false, 1, .other⟩ .empty
      rfl (by decide)
  · exact typeid_for_fnabi_skips_ignored.2.2.1 20 64
      ⟨[⟨.ignore, .bool⟩], ⟨.direct, .tuple .nil⟩, false, 1, .other⟩ .empty
      "_ZTSFvvE" rfl (by decide) (by decide)

/-- The character list of a string, reversed; used to compare identifier
suffixes from the right end. -/
def rev_chars (s : String) : List Char := s.data.reverse

theorem rev_chars_append (a b : String) :
    rev_chars (a ++ b) = rev_chars b ++ rev_chars a := by
  simp [rev_chars, String.data_append]

/-- Strings that end in "E" followed by the optional ".normalized" and
".generalized" markers determine the two marker flags, whatever precedes:
different flag pairs give different strings. -/
theorem suffix_marks_distinct (c1 c2 : String) (n1 g1 n2 g2 : Bool)
    (hne : ¬(n1 = n2 ∧ g1 = g2)) :
    c1 ++ "E" ++ (if n1 then ".normalized" else "")
       ++ (if g1 then ".generalized" else "")
    ≠ c2 ++ "E" ++ (if n2 then ".normalized" else "")
       ++ (if g2 then ".generalized" else "") := by
  intro heq
  have hN : rev_chars ".normalized"
      = ['d','e','z','i','l','a','m','r','o','n','.'] := by decide
  have hG : rev_chars ".generalized"
      = ['d','e','z','i','l','a','r','e','n','e','g','.'] := by decide
  have hE : rev_chars "E" = ['E'] := by decide
  have hEmp : rev_chars "" = [] := by decide
  cases n1 <;> cases g1 <;> cases n2 <;> cases g2 <;>
    first
      | exact hne (by decide)
      | (simp at heq
         have h := congrArg rev_chars heq
         simp only [rev_chars_append, hN, hG, hE, hEmp] at h
         simp at h)

/-- C4 counterexample: two option sets that differ (only in
USE_CONCRETE_SELF) produce the identical identifier for the same ABI, so
identifiers computed with different option sets are not always textually
distinct. -/
theorem typeid_for_fnabi_options_cex :
    typeid_for_fnabi 20 64
      ⟨[], ⟨.direct, .tuple .nil⟩, false, 0, .other⟩
      ⟨false, false, false, true⟩ = some "_ZTSFvvE" ∧
    typeid_for_fnabi 20 64
      ⟨[], ⟨.direct, .tuple .nil⟩, false, 0, .other⟩
      ⟨false, false, false, false⟩ = some "_ZTSFvvE" ∧
    (⟨false, false, false, true⟩ : TypeIdOptions)
      ≠ ⟨false, false, false, false⟩ := by
  decide

/-- C4 amended: every identifier typeid_for_fnabi returns has the form
"_ZTSF" ++ encoded-signature ++ "E", followed by ".normalized" iff
NORMALIZE_INTEGERS is set and then ".generalized" iff GENERALIZE_POINTERS is
set; identifiers computed from option sets that differ in
NORMALIZE_INTEGERS or GENERALIZE_POINTERS are textually distinct (even
across different ABIs), while option sets differing only in the remaining
flags can coincide. -/
theorem typeid_for_fnabi_suffix_spec :
    (∀ fuel pw fn_abi options s,
      typeid_for_fnabi fuel pw fn_abi options = some s →
      ∃ body, s = "_ZTSF" ++ body ++ "E"
        ++ (if options.normalize_integers then ".normalized" else "")
        ++ (if options.generalize_pointers then ".generalized" else "")) ∧
    (∀ fuel1 pw1 fa1 o1 s1 fuel2 pw2 fa2 o2 s2,
      typeid_for_fnabi fuel1 pw1 fa1 o1 = some s1 →
      typeid_for_fnabi fuel2 pw2 fa2 o2 = some s2 →
      (o1.normalize_integers ≠ o2.normalize_integers ∨
       o1.generalize_pointers ≠ o2.generalize_pointers) →
      s1 ≠ s2) := by
  have hshape : ∀ fuel pw fn_abi options s,
      typeid_for_fnabi fuel pw fn_abi options = some s →
      ∃ body, s = "_ZTSF" ++ body ++ "E"
        ++ (if options.normalize_integers then ".normalized" else "")
        ++ (if options.generalize_pointers then ".generalized" else "") := by
    intro fuel pw fn_abi options s h
    simp only [typeid_for_fnabi] at h
    split at h
    case h_2 => exact absurd h (by simp)
    split at h
    case h_2 => exact absurd h (by simp)
    split at h
    case h_2 => exact absurd h (by simp)
    rename_i rty hfold pr rs st1 henc pq ps st2 hps
    refine ⟨rs ++ ps, ?_⟩
    simp only [Option.some.injEq] at h
    rw [← h]
    rw [String.append_assoc "_ZTSF" rs ps]
  refine ⟨hshape, ?_⟩
  intro fuel1 pw1 fa1 o1 s1 fuel2 pw2 fa2 o2 s2 h1 h2 hne heq
  obtain ⟨b1, hb1⟩ := hshape fuel1 pw1 fa1 o1 s1 h1
  obtain ⟨b2, hb2⟩ := hshape fuel2 pw2 fa2 o2 s2 h2
  rw [hb1, hb2] at heq
  exact suffix_marks_distinct ("_ZTSF" ++ b1) ("_ZTSF" ++ b2)
    o1.normalize_integers o1.generalize_pointers
    o2.normalize_integers o2.generalize_pointers
    (by rcases hne with hn | hg
        · exact fun hand => hn hand.1
        · exact fun hand => hg hand.2) heq

/-- C4 witness: the amended theorem applied to the empty-ABI identifiers
with NORMALIZE_INTEGERS, respectively GENERALIZE_POINTERS, set against the
plain variant: "_ZTSFvvE.normalized", "_ZTSFvvE.generalized" and "_ZTSFvvE"
are pairwise distinct. -/
theorem typeid_for_fnabi_suffix_spec_witness :
    ("_ZTSFvvE.normalized" : String) ≠ "_ZTSFvvE" ∧
    ("_ZTSFvvE.generalized" : String) ≠ "_ZTSFvvE.normalized" := by
  constructor
  · exact typeid_for_fnabi_suffix_spec.2 20 64
      ⟨[], ⟨.direct, .tuple .nil⟩, false, 0, .other⟩
      ⟨false, true, false, false⟩ "_ZTSFvvE.normalized" 20 64
      ⟨[], ⟨.direct, .tuple .nil⟩, false, 0, .other⟩
      ⟨false, false, false, false⟩ "_ZTSFvvE"
      (by decide) (by decide) (by decide)
  · exact typeid_for_fnabi_suffix_spec.2 20 64
      ⟨[], ⟨.direct, .tuple .nil⟩, false, 0, .other⟩
      ⟨true, false, false, false⟩ "_ZTSFvvE.generalized" 20 64
      ⟨[], ⟨.direct, .tuple .nil⟩, false, 0, .other⟩
      ⟨false, true, false, false⟩ "_ZTSFvvE.normalized"
      (by decide) (by decide) (by decide)

/-- C7 counterexample: the claim fails for element types that are never
compressed or whose encoding inserts sub-components first.  A tuple of two
bools encodes as "u5tupleIbbE" (bool is an ABI builtin letter, never entered
in the dictionary), not as the first form followed by "S_"; a tuple of two
equal shared references encodes the second element as "S0_" (the pointee was
inserted first), not "S_". -/
theorem tuple_pair_backref_cex :
    encode_ty 20 64 (.tuple (.cons .bool (.cons .bool .nil))) ⟨[], 0⟩ .empty
      = some ("u5tupleIbbE",
          ⟨[.ty (.tuple (.cons .bool (.cons .bool .nil))) .none], 0⟩) ∧
    ("u5tupleIbbE" : String) ≠ "u5tupleIbS_E" ∧
    encode_ty 20 64
      (.tuple (.cons (.ref .reErased (.int .i32) .not)
        (.cons (.ref .reErased (.int .i32) .not) .nil))) ⟨[], 0⟩ .empty
      = some ("u5tupleIu3refIu3i32ES0_E",
          ⟨[.ty (.int .i32) .none,
            .ty (.ref .reErased (.int .i32) .not) .none,
            .ty (.tuple (.cons (.ref .reErased (.int .i32) .not)
              (.cons (.ref .reErased (.int .i32) .not) .nil))) .none], 0⟩) ∧
    ("u5tupleIu3refIu3i32ES0_E" : String) ≠ "u5tupleIu3refIu3i32ES_E" := by
  decide

/-- Element types whose whole encoding is a single component compressed
under the key (type, no qualifier), with no separately compressed
sub-component: the fixed-width integers, char, str, the never type and type
parameters. -/
def atom_key_ty : Ty → Bool
  | .int _ => true
  | .uint _ => true
  | .char => true
  | .str => true
  | .never => true
  | .param => true
  | _ => false

/-- C7 amended: for every element type that is encoded as a single
dictionary atom (fixed-width integers, char, str, never, type parameters),
encoding a tuple of two structurally equal such elements from an empty
dictionary produces the first element's full encoded form followed by
exactly "S_" for the second; element types encoded as ABI builtin letters
(bool, floats, unit) repeat their full form instead, and element types with
separately compressed sub-components receive a later back-reference token. -/
theorem tuple_pair_backref (t : Ty) (h : atom_key_ty t = true)
    (fuel pw : Nat) (options : TypeIdOptions) :
    ∃ s1, encode_ty (fuel + 1) pw t ⟨[], 0⟩ options
        = some (s1, ⟨[.ty t .none], 0⟩) ∧
      encode_ty (fuel + 4) pw (.tuple (.cons t (.cons t .nil))) ⟨[], 0⟩
          options
        = some ("u5tupleI" ++ s1 ++ "S_" ++ "E",
            ⟨[.ty t .none,
              .ty (.tuple (.cons t (.cons t .nil))) .none], 0⟩) := by
  cases t <;> (try simp only [atom_key_ty, Bool.false_eq_true] at h) <;>
    exact ⟨_, rfl, by
      simp [encode_ty, encode_tys, compress, to_seq_id,
        String.append_assoc, string_append_empty]⟩

/-- C7 witness: tuple_pair_backref applied to the element type i32: the
pair encodes as "u5tupleIu3i32S_E". -/
theorem tuple_pair_backref_witness :
    ∃ s1, encode_ty 20 64 (.int .i32) ⟨[], 0⟩ .empty
        = some (s1, ⟨[.ty (.int .i32) .none], 0⟩) ∧
      encode_ty 23 64
          (.tuple (.cons (.int .i32) (.cons (.int .i32) .nil))) ⟨[], 0⟩
          .empty
        = some ("u5tupleI" ++ s1 ++ "S_" ++ "E",
            ⟨[.ty (.int .i32) .none,
              .ty (.tuple (.cons (.int .i32) (.cons (.int .i32) .nil)))
                .none], 0⟩) :=
  tuple_pair_backref (.int .i32) (by decide) 19 64 .empty

/-- The normalization pass reads the visited-node stack only through
interned-equality tests against aggregate nodes it reaches, and every node
it reaches occurs in the tree of the object being folded (stored field data
included); so two stacks that agree on those tests for every occurring node
fold identically.  In particular a stack entry that is interned-equal to no
node occurring in the object is irrelevant. -/
theorem fold_parents_agree :
    ∀ n : Nat,
    (∀ (pw : Nat) (o : TypeIdOptions) (p₁ p₂ : List Ty) (t : Ty),
      sizeOf t ≤ n →
      (∀ u : Ty, Ty.occurs_node t u = true →
        p₁.any (fun y => Ty.teq y u) = p₂.any (fun y => Ty.teq y u)) →
      fold_ty pw o p₁ t = fold_ty pw o p₂ t) ∧
    (∀ (pw : Nat) (o : TypeIdOptions) (p₁ p₂ : List Ty) (tt : Ty)
      (fs : Fields), sizeOf fs ≤ n →
      (∀ u : Ty, Fields.occurs_node fs u = true →
        p₁.any (fun y => Ty.teq y u) = p₂.any (fun y => Ty.teq y u)) →
      fold_transparent_fields pw o p₁ tt fs
        = fold_transparent_fields pw o p₂ tt fs) ∧
    (∀ (pw : Nat) (o : TypeIdOptions) (p₁ p₂ : List Ty) (ts : Tys),
      sizeOf ts ≤ n →
      (∀ u : Ty, Tys.occurs_node ts u = true →
        p₁.any (fun y => Ty.teq y u) = p₂.any (fun y => Ty.teq y u)) →
      fold_tys pw o p₁ ts = fold_tys pw o p₂ ts) ∧
    (∀ (pw : Nat) (o : TypeIdOptions) (p₁ p₂ : List Ty) (args : GArgs),
      sizeOf args ≤ n →
      (∀ u : Ty, GArgs.occurs_node args u = true →
        p₁.any (fun y => Ty.teq y u) = p₂.any (fun y => Ty.teq y u)) →
      fold_args pw o p₁ args = fold_args pw o p₂ args) ∧
    (∀ (pw : Nat) (o : TypeIdOptions) (p₁ p₂ : List Ty) (a : GArg),
      sizeOf a ≤ n →
      (∀ u : Ty, GArg.occurs_node a u = true →
        p₁.any (fun y => Ty.teq y u) = p₂.any (fun y => Ty.teq y u)) →
      fold_arg pw o p₁ a = fold_arg pw o p₂ a) ∧
    (∀ (pw : Nat) (o : TypeIdOptions) (p₁ p₂ : List Ty) (c : Cnst),
      sizeOf c ≤ n →
      (∀ u : Ty, Cnst.occurs_node c u = true →
        p₁.any (fun y => Ty.teq y u) = p₂.any (fun y => Ty.teq y u)) →
      fold_cnst pw o p₁ c = fold_cnst pw o p₂ c) ∧
    (∀ (pw : Nat) (o : TypeIdOptions) (p₁ p₂ : List Ty) (ps : Preds),
      sizeOf ps ≤ n →
      (∀ u : Ty, Preds.occurs_node ps u = true →
        p₁.any (fun y => Ty.teq y u) = p₂.any (fun y => Ty.teq y u)) →
      fold_preds pw o p₁ ps = fold_preds pw o p₂ ps) ∧
    (∀ (pw : Nat) (o : TypeIdOptions) (p₁ p₂ : List Ty) (pd : Predicate),
      sizeOf pd ≤ n →
      (∀ u : Ty, Predicate.occurs_node pd u = true →
        p₁.any (fun y => Ty.teq y u) = p₂.any (fun y => Ty.teq y u)) →
      fold_pred pw o p₁ pd = fold_pred pw o p₂ pd) ∧
    (∀ (pw : Nat) (o : TypeIdOptions) (p₁ p₂ : List Ty) (tm : Term),
      sizeOf tm ≤ n →
      (∀ u : Ty, Term.occurs_node tm u = true →
        p₁.any (fun y => Ty.teq y u) = p₂.any (fun y => Ty.teq y u)) →
      fold_term pw o p₁ tm = fold_term pw o p₂ tm) ∧
    (∀ (pw : Nat) (o : TypeIdOptions) (p₁ p₂ : List Ty) (sg : FnSig),
      sizeOf sg ≤ n →
      (∀ u : Ty, FnSig.occurs_node sg u = true →
        p₁.any (fun y => Ty.teq y u) = p₂.any (fun y => Ty.teq y u)) →
      fold_sig pw o p₁ sg = fold_sig pw o p₂ sg) := by
  intro n
  induction n using Nat.strong_induction_on with
  | _ n ih =>
  refine ⟨?_, ?_, ?_, ?_, ?_, ?_, ?_, ?_, ?_, ?_⟩
  · intro pw o p₁ p₂ t hle hp
    cases t with
    | bool => rfl
    | int it => rfl
    | uint ut => rfl
    | float ft => rfl
    | char => rfl
    | str => rfl
    | never => rfl
    | foreign info => rfl
    | coroutineWitness => rfl
    | bound => rfl
    | error => rfl
    | infer => rfl
    | param => rfl
    | placeholder => rfl
    | tuple ts =>
      have hlt : sizeOf ts < sizeOf (Ty.tuple ts) := by simp <;> omega
      have h2 := (ih (sizeOf ts) (Nat.lt_of_lt_of_le hlt hle)).2.2.1 pw o
        p₁ p₂ ts le_rfl (fun u hu => hp u (by simp [Ty.occurs_node, hu]))
      simp only [fold_ty, h2]
    | array e len =>
      have hlt : sizeOf e < sizeOf (Ty.array e len) := by simp <;> omega
      have h2 := (ih (sizeOf e) (Nat.lt_of_lt_of_le hlt hle)).1 pw o
        p₁ p₂ e le_rfl (fun u hu => hp u (by simp [Ty.occurs_node, hu]))
      simp only [fold_ty, h2]
    | pat e pstr =>
      have hlt : sizeOf e < sizeOf (Ty.pat e pstr) := by simp <;> omega
      have h2 := (ih (sizeOf e) (Nat.lt_of_lt_of_le hlt hle)).1 pw o
        p₁ p₂ e le_rfl (fun u hu => hp u (by simp [Ty.occurs_node, hu]))
      simp only [fold_ty, h2]
    | slice e =>
      have hlt : sizeOf e < sizeOf (Ty.slice e) := by simp <;> omega
      have h2 := (ih (sizeOf e) (Nat.lt_of_lt_of_le hlt hle)).1 pw o
        p₁ p₂ e le_rfl (fun u hu => hp u (by simp [Ty.occurs_node, hu]))
      simp only [fold_ty, h2]
    | fnDef nm args =>
      have hlt : sizeOf args < sizeOf (Ty.fnDef nm args) := by simp <;> omega
      have h2 := (ih (sizeOf args) (Nat.lt_of_lt_of_le hlt hle)).2.2.2.1 pw o
        p₁ p₂ args le_rfl (fun u hu => hp u (by simp [Ty.occurs_node, hu]))
      simp only [fold_ty, h2]
    | closure nm args =>
      have hlt : sizeOf args < sizeOf (Ty.closure nm args) := by simp <;> omega
      have h2 := (ih (sizeOf args) (Nat.lt_of_lt_of_le hlt hle)).2.2.2.1 pw o
        p₁ p₂ args le_rfl (fun u hu => hp u (by simp [Ty.occurs_node, hu]))
      simp only [fold_ty, h2]
    | coroutineClosure nm pargs =>
      have hlt : sizeOf pargs < sizeOf (Ty.coroutineClosure nm pargs) := by simp <;> omega
      have h2 := (ih (sizeOf pargs) (Nat.lt_of_lt_of_le hlt hle)).2.2.2.1 pw o
        p₁ p₂ pargs le_rfl (fun u hu => hp u (by simp [Ty.occurs_node, hu]))
      simp only [fold_ty, h2]
    | coroutine nm pargs =>
      have hlt : sizeOf pargs < sizeOf (Ty.coroutine nm pargs) := by simp <;> omega
      have h2 := (ih (sizeOf pargs) (Nat.lt_of_lt_of_le hlt hle)).2.2.2.1 pw o
        p₁ p₂ pargs le_rfl (fun u hu => hp u (by simp [Ty.occurs_node, hu]))
      simp only [fold_ty, h2]
    | ref r pt m =>
      have hlt : sizeOf pt < sizeOf (Ty.ref r pt m) := by simp <;> omega
      have h2 := (ih (sizeOf pt) (Nat.lt_of_lt_of_le hlt hle)).1 pw o
        p₁ p₂ pt le_rfl (fun u hu => hp u (by simp [Ty.occurs_node, hu]))
      simp only [fold_ty, h2]
    | rawPtr pt m =>
      have hlt : sizeOf pt < sizeOf (Ty.rawPtr pt m) := by simp <;> omega
      have h2 := (ih (sizeOf pt) (Nat.lt_of_lt_of_le hlt hle)).1 pw o
        p₁ p₂ pt le_rfl (fun u hu => hp u (by simp [Ty.occurs_node, hu]))
      simp only [fold_ty, h2]
    | fnPtr sg =>
      have hlt : sizeOf sg < sizeOf (Ty.fnPtr sg) := by simp <;> omega
      have h2 := (ih (sizeOf sg) (Nat.lt_of_lt_of_le hlt hle)).2.2.2.2.2.2.2.2.2 pw o
        p₁ p₂ sg le_rfl (fun u hu => hp u (by simp [Ty.occurs_node, hu]))
      simp only [fold_ty, h2]
    | dynamic preds r k =>
      have hlt : sizeOf preds < sizeOf (Ty.dynamic preds r k) := by simp <;> omega
      have h2 := (ih (sizeOf preds) (Nat.lt_of_lt_of_le hlt hle)).2.2.2.2.2.2.1 pw o
        p₁ p₂ preds le_rfl (fun u hu => hp u (by simp [Ty.occurs_node, hu]))
      simp only [fold_ty, h2]
    | «alias» r =>
      have hlt : sizeOf r < sizeOf (Ty.alias r) := by simp <;> omega
      have h2 := (ih (sizeOf r) (Nat.lt_of_lt_of_le hlt hle)).1 pw o
        p₁ p₂ r le_rfl (fun u hu => hp u (by simp [Ty.occurs_node, hu]))
      simp only [fold_ty, h2]
    | adt info fields args =>
      have hguard := hp (Ty.adt info fields args) (by simp [Ty.occurs_node])
      have hltf : sizeOf fields < sizeOf (Ty.adt info fields args) := by
        simp <;> omega
      have hlta : sizeOf args < sizeOf (Ty.adt info fields args) := by
        simp <;> omega
      have hargs := (ih (sizeOf args) (Nat.lt_of_lt_of_le hlta hle)).2.2.2.1
        pw o p₁ p₂ args le_rfl
        (fun u hu => hp u (by simp [Ty.occurs_node, hu]))
      have hfs := (ih (sizeOf fields) (Nat.lt_of_lt_of_le hltf hle)).2.1
        pw o p₁ p₂ (Ty.adt info fields args) fields le_rfl
        (fun u hu => hp u (by simp [Ty.occurs_node, hu]))
      simp only [fold_ty, hguard, hargs, hfs]
  · intro pw o p₁ p₂ tt fs hle hp
    cases fs with
    | nil => rfl
    | cons f rest =>
      cases f with
      | mk fty zst =>
        have hltr : sizeOf rest
            < sizeOf (Fields.cons (FieldDef.mk fty zst) rest) := by
          simp <;> omega
        have hltf : sizeOf fty
            < sizeOf (Fields.cons (FieldDef.mk fty zst) rest) := by
          simp <;> omega
        have hrest := (ih (sizeOf rest) (Nat.lt_of_lt_of_le hltr hle)).2.1
          pw o p₁ p₂ tt rest le_rfl
          (fun u hu => hp u (by simp [Fields.occurs_node, hu]))
        have hfinv : ∀ u : Ty, Ty.occurs_node fty u = true →
            (p₁ ++ [tt]).any (fun y => Ty.teq y u)
              = (p₂ ++ [tt]).any (fun y => Ty.teq y u) := by
          intro u hu
          have h0 := hp u
            (by simp [Fields.occurs_node, FieldDef.occurs_node, hu])
          simp [List.any_append, h0]
        have hf1 := (ih (sizeOf fty) (Nat.lt_of_lt_of_le hltf hle)).1 pw
          { o with generalize_pointers := true } (p₁ ++ [tt]) (p₂ ++ [tt])
          fty le_rfl hfinv
        have hf2 := (ih (sizeOf fty) (Nat.lt_of_lt_of_le hltf hle)).1 pw o
          (p₁ ++ [tt]) (p₂ ++ [tt]) fty le_rfl hfinv
        simp only [fold_transparent_fields, hrest, hf1, hf2]
  · intro pw o p₁ p₂ ts hle hp
    cases ts with
    | nil => rfl
    | cons t rest =>
      have hlt1 : sizeOf t < sizeOf (Tys.cons t rest) := by simp <;> omega
      have hlt2 : sizeOf rest < sizeOf (Tys.cons t rest) := by simp <;> omega
      have h1 := (ih (sizeOf t) (Nat.lt_of_lt_of_le hlt1 hle)).1 pw o
        p₁ p₂ t le_rfl (fun u hu => hp u (by simp [Tys.occurs_node, hu]))
      have h2 := (ih (sizeOf rest) (Nat.lt_of_lt_of_le hlt2 hle)).2.2.1 pw o
        p₁ p₂ rest le_rfl (fun u hu => hp u (by simp [Tys.occurs_node, hu]))
      simp only [fold_tys, h1, h2]
  · intro pw o p₁ p₂ args hle hp
    cases args with
    | nil => rfl
    | cons a rest =>
      have hlt1 : sizeOf a < sizeOf (GArgs.cons a rest) := by simp <;> omega
      have hlt2 : sizeOf rest < sizeOf (GArgs.cons a rest) := by simp <;> omega
      have h1 := (ih (sizeOf a) (Nat.lt_of_lt_of_le hlt1 hle)).2.2.2.2.1 pw o
        p₁ p₂ a le_rfl (fun u hu => hp u (by simp [GArgs.occurs_node, hu]))
      have h2 := (ih (sizeOf rest) (Nat.lt_of_lt_of_le hlt2 hle)).2.2.2.1 pw o
        p₁ p₂ rest le_rfl (fun u hu => hp u (by simp [GArgs.occurs_node, hu]))
      simp only [fold_args, h1, h2]
  · intro pw o p₁ p₂ a hle hp
    cases a with
    | lifetime r => rfl
    | type t =>
      have hlt : sizeOf t < sizeOf (GArg.type t) := by simp <;> omega
      have h2 := (ih (sizeOf t) (Nat.lt_of_lt_of_le hlt hle)).1 pw o
        p₁ p₂ t le_rfl (fun u hu => hp u (by simp [GArg.occurs_node, hu]))
      simp only [fold_arg, h2]
    | const c =>
      have hlt : sizeOf c < sizeOf (GArg.const c) := by simp <;> omega
      have h2 := (ih (sizeOf c) (Nat.lt_of_lt_of_le hlt hle)).2.2.2.2.2.1 pw o
        p₁ p₂ c le_rfl (fun u hu => hp u (by simp [GArg.occurs_node, hu]))
      simp only [fold_arg, h2]
  · intro pw o p₁ p₂ c hle hp
    cases c with
    | mk kind cty =>
      have hlt : sizeOf cty < sizeOf (Cnst.mk kind cty) := by simp <;> omega
      have h2 := (ih (sizeOf cty) (Nat.lt_of_lt_of_le hlt hle)).1 pw o
        p₁ p₂ cty le_rfl (fun u hu => hp u (by simp [Cnst.occurs_node, hu]))
      simp only [fold_cnst, h2]
  · intro pw o p₁ p₂ ps hle hp
    cases ps with
    | nil => rfl
    | cons pd rest =>
      have hlt1 : sizeOf pd < sizeOf (Preds.cons pd rest) := by simp <;> omega
      have hlt2 : sizeOf rest < sizeOf (Preds.cons pd rest) := by simp <;> omega
      have h1 := (ih (sizeOf pd) (Nat.lt_of_lt_of_le hlt1 hle)).2.2.2.2.2.2.2.1 pw o
        p₁ p₂ pd le_rfl (fun u hu => hp u (by simp [Preds.occurs_node, hu]))
      have h2 := (ih (sizeOf rest) (Nat.lt_of_lt_of_le hlt2 hle)).2.2.2.2.2.2.1 pw o
        p₁ p₂ rest le_rfl (fun u hu => hp u (by simp [Preds.occurs_node, hu]))
      simp only [fold_preds, h1, h2]
  · intro pw o p₁ p₂ pd hle hp
    cases pd with
    | autoTrait nm => rfl
    | trait nm args =>
      have hlt : sizeOf args < sizeOf (Predicate.trait nm args) := by
        simp <;> omega
      have h2 := (ih (sizeOf args) (Nat.lt_of_lt_of_le hlt hle)).2.2.2.1 pw o
        p₁ p₂ args le_rfl
        (fun u hu => hp u (by simp [Predicate.occurs_node, hu]))
      simp only [fold_pred, h2]
    | projection nm args tm =>
      have hlt1 : sizeOf args < sizeOf (Predicate.projection nm args tm) := by
        simp <;> omega
      have hlt2 : sizeOf tm < sizeOf (Predicate.projection nm args tm) := by
        simp <;> omega
      have h1 := (ih (sizeOf args) (Nat.lt_of_lt_of_le hlt1 hle)).2.2.2.1 pw o
        p₁ p₂ args le_rfl
        (fun u hu => hp u (by simp [Predicate.occurs_node, hu]))
      have h2 := (ih (sizeOf tm)
        (Nat.lt_of_lt_of_le hlt2 hle)).2.2.2.2.2.2.2.2.1 pw o
        p₁ p₂ tm le_rfl
        (fun u hu => hp u (by simp [Predicate.occurs_node, hu]))
      simp only [fold_pred, h1, h2]
  · intro pw o p₁ p₂ tm hle hp
    cases tm with
    | ty t =>
      have hlt : sizeOf t < sizeOf (Term.ty t) := by simp <;> omega
      have h2 := (ih (sizeOf t) (Nat.lt_of_lt_of_le hlt hle)).1 pw o
        p₁ p₂ t le_rfl (fun u hu => hp u (by simp [Term.occurs_node, hu]))
      simp only [fold_term, h2]
    | const c =>
      have hlt : sizeOf c < sizeOf (Term.const c) := by simp <;> omega
      have h2 := (ih (sizeOf c) (Nat.lt_of_lt_of_le hlt hle)).2.2.2.2.2.1 pw o
        p₁ p₂ c le_rfl (fun u hu => hp u (by simp [Term.occurs_node, hu]))
      simp only [fold_term, h2]
  · intro pw o p₁ p₂ sg hle hp
    cases sg with
    | mk ins out v a =>
      have hlt1 : sizeOf ins < sizeOf (FnSig.mk ins out v a) := by
        simp <;> omega
      have hlt2 : sizeOf out < sizeOf (FnSig.mk ins out v a) := by
        simp <;> omega
      have h1 := (ih (sizeOf ins) (Nat.lt_of_lt_of_le hlt1 hle)).2.2.1 pw o
        p₁ p₂ ins le_rfl
        (fun u hu => hp u (by simp [FnSig.occurs_node, hu]))
      have h2 := (ih (sizeOf out) (Nat.lt_of_lt_of_le hlt2 hle)).1 pw o
        p₁ p₂ out le_rfl
        (fun u hu => hp u (by simp [FnSig.occurs_node, hu]))
      simp only [fold_sig, h1, h2]

/-- All fields of the variant are zero-sized according to the layout query. -/
def Fields.all_zst : Fields → Bool
  | .nil => true
  | .cons (.mk _ z) fs => z && Fields.all_zst fs

/-- With every field a ZST, the transparent unwrap walks the whole field list
and falls through to unit (source lines 898-901). -/
theorem fold_transparent_all_zst :
    ∀ (n pw : Nat) (o : TypeIdOptions) (ps : List Ty) (t : Ty)
      (fs : Fields), sizeOf fs ≤ n → Fields.all_zst fs = true →
      fold_transparent_fields pw o ps t fs = some Ty.unit := by
  intro n
  induction n using Nat.strong_induction_on with
  | _ n ih =>
  intro pw o ps t fs hle hz
  cases fs with
  | nil => rfl
  | cons f rest =>
    cases f with
    | mk fty z =>
      simp only [Fields.all_zst, Bool.and_eq_true] at hz
      have hlt : sizeOf rest
          < sizeOf (Fields.cons (FieldDef.mk fty z) rest) := by
        simp <;> omega
      have h2 := ih (sizeOf rest) (Nat.lt_of_lt_of_le hlt hle) pw o ps t
        rest le_rfl hz.2
      simp only [fold_transparent_fields, hz.1, if_true, h2]

/-- C8 counterexample: a self-referential transparent pointer wrapper, rustc's
`#[repr(transparent)] struct P(*const P)`, modelled by finitely unrolling the
interned self-referential node into layers that Ty.teq identifies.  Source
lines 887-892 escalate GENERALIZE_POINTERS for the one unwrap step because the
field is a pointer whose pointee is the wrapper itself, so the wrapper
normalizes to the generalized pointer *const () and encodes as "PKv", while
the field's type *const P keeps its outer pointer concrete and normalizes to
*const *const (), encoding as "PKPKv" — the wrapper does not encode
identically to its field's type. -/
theorem transparent_wrapper_cex :
    fold_ty 64 TypeIdOptions.empty []
        (.adt ⟨"1P", "P", none, false, true, true, false⟩
          (.cons (.mk (.rawPtr
            (.adt ⟨"1P", "P", none, false, true, true, false⟩
              (.cons (.mk (.rawPtr
                (.adt ⟨"1P", "P", none, false, true, true, false⟩
                  (.cons (.mk (.rawPtr (.int .i32) .not) false) .nil) .nil)
                .not) false) .nil) .nil)
            .not) false) .nil) .nil)
      = some (.rawPtr Ty.unit .not) ∧
    fold_ty 64 TypeIdOptions.empty []
        (.rawPtr
          (.adt ⟨"1P", "P", none, false, true, true, false⟩
            (.cons (.mk (.rawPtr
              (.adt ⟨"1P", "P", none, false, true, true, false⟩
                (.cons (.mk (.rawPtr (.int .i32) .not) false) .nil) .nil)
              .not) false) .nil) .nil)
          .not)
      = some (.rawPtr (.rawPtr Ty.unit .not) .not) ∧
    (encode_ty 20 64 (.rawPtr Ty.unit .not) ⟨[], 0⟩
        TypeIdOptions.empty).map Prod.fst = some "PKv" ∧
    (encode_ty 20 64 (.rawPtr (.rawPtr Ty.unit .not) .not) ⟨[], 0⟩
        TypeIdOptions.empty).map Prod.fst = some "PKPKv" ∧
    ("PKv" : String) ≠ "PKPKv" := by
  refine ⟨by decide, by decide, by decide, by decide, by decide⟩

/-- C8 amended: the unwrap identity holds for wrappers that are not
self-referential.  For every single-field transparent-layout struct wrapper
whose sole field has non-zero size, carries no user override encoding, and
whose field type neither structurally contains the wrapper (so the
pointer-generalization escalation of source lines 887-892 stays off) nor has
any node of its tree interned-equal to the wrapper (so the visited-stack
guard never fires inside it), normalizing the wrapper yields exactly the
normalization of the field's type, and hence the encoded identifier strings
coincide; a transparent wrapper with only zero-size fields normalizes to the
unit type and encodes as "v". -/
theorem transparent_wrapper_spec (pw : Nat) (options : TypeIdOptions)
    (info : AdtInfo) (fty : Ty) (args : GArgs)
    (htr : info.repr_transparent = true) (hstr : info.is_struct = true)
    (hcv : info.is_c_void = false) (hattr : info.cfi_encoding = none)
    (hcont : Ty.contains_ty fty
      (Ty.adt info (.cons (.mk fty false) .nil) args) = false)
    (hocc : ∀ u : Ty, Ty.occurs_node fty u = true →
      Ty.teq (Ty.adt info (.cons (.mk fty false) .nil) args) u = false) :
    (fold_ty pw options [] (Ty.adt info (.cons (.mk fty false) .nil) args)
      = fold_ty pw options [] fty) ∧
    (∀ (fuel : Nat) (st : EncState),
      (fold_ty pw options []
          (Ty.adt info (.cons (.mk fty false) .nil) args)).bind
          (fun t2 => (encode_ty fuel pw t2 st options).map Prod.fst)
        = (fold_ty pw options [] fty).bind
            (fun t2 => (encode_ty fuel pw t2 st options).map Prod.fst)) ∧
    (∀ fs : Fields, Fields.all_zst fs = true →
      fold_ty pw options [] (Ty.adt info fs args) = some Ty.unit ∧
      ∀ (fuel : Nat) (st : EncState),
        (fold_ty pw options [] (Ty.adt info fs args)).bind
            (fun t2 => (encode_ty (fuel + 1) pw t2 st options).map Prod.fst)
          = some "v") := by
  have h1 : fold_ty pw options []
      (Ty.adt info (.cons (.mk fty false) .nil) args)
      = fold_ty pw options [] fty := by
    have hagree := (fold_parents_agree (sizeOf fty)).1 pw options
      [Ty.adt info (.cons (.mk fty false) .nil) args] [] fty le_rfl
      (fun u hu => by simp [hocc u hu])
    simp only [fold_ty, hcv, htr, hstr, hattr, List.any_nil, Bool.not_false,
      Bool.and_true, Bool.true_and, Option.isSome_none, Bool.false_eq_true,
      if_false, if_true, fold_transparent_fields, hcont, Bool.and_false,
      List.nil_append]
    exact hagree
  refine ⟨h1, fun fuel st => by rw [h1], ?_⟩
  intro fs hz
  have h2 : fold_ty pw options [] (Ty.adt info fs args) = some Ty.unit := by
    simp only [fold_ty, hcv, htr, hstr, hattr, List.any_nil, Bool.not_false,
      Bool.and_true, Bool.true_and, Option.isSome_none, Bool.false_eq_true,
      if_false, if_true]
    exact fold_transparent_all_zst (sizeOf fs) pw options []
      (Ty.adt info fs args) fs le_rfl hz
  refine ⟨h2, fun fuel st => ?_⟩
  rw [h2]
  rfl

theorem transparent_wrapper_spec_witness :
    fold_ty 64 TypeIdOptions.empty []
        (Ty.adt ⟨"1W", "W", none, false, true, true, false⟩
          (.cons (.mk (.int .i32) false) .nil) .nil)
      = fold_ty 64 TypeIdOptions.empty [] (.int .i32) ∧
    fold_ty 64 TypeIdOptions.empty []
        (Ty.adt ⟨"1W", "W", none, false, true, true, false⟩
          (.cons (.mk (.tuple .nil) true) .nil) .nil)
      = some Ty.unit := by
  have h := transparent_wrapper_spec 64 TypeIdOptions.empty
    ⟨"1W", "W", none, false, true, true, false⟩ (.int .i32) .nil
    rfl rfl rfl rfl (by decide)
    (fun u hu => by
      simp only [Ty.occurs_node, Bool.or_false, beq_iff_eq] at hu
      subst hu
      decide)
  exact ⟨h.1, (h.2.2 (.cons (.mk (.tuple .nil) true) .nil) (by decide)).1⟩

end TypeidItaniumCxxAbi

